import Mathlib

/-!
Verification development for the aggregation expression tree of
`elasticsearch_dsl/aggs.py`.

The embedding models wire objects as a JSON inductive whose objects are
insertion-ordered association lists (Python dicts preserve insertion
order), aggregation nodes as a `kind` tag plus an ordered parameter map
(mirroring `DslBase._params`), and the factory `A` as a fuel-indexed
function (the fuel only bounds recursion depth through nested `aggs`
mappings; every theorem quantifies over or instantiates a sufficient
budget).

The repository files `utils.py` (class `DslBase`) and `response/aggs.py`
are not part of the sources under study; the pieces of behavior they own
(the base `to_dict` parameter serialization and the constructor coercion
of declared parameters) are modelled from the specification where noted.
-/

/-- Wire-format JSON values. Objects are insertion-ordered association
lists, numbers are modelled as integers (no claim depends on float
behavior). -/
inductive JSON where
  | null
  | bool (b : Bool)
  | num (n : Int)
  | str (s : String)
  | arr (xs : List JSON)
  | obj (fields : List (String × JSON))

/-- Python truthiness of a JSON value, as used by the source in
`if aggs:` and `if meta:` (aggs.py lines 70 and 73). -/
def truthy : JSON → Bool
  | .null => false
  | .bool b => b
  | .num n => n != 0
  | .str s => s != ""
  | .arr xs => !xs.isEmpty
  | .obj fs => !fs.isEmpty

/-- Association-list lookup, mirroring Python `d[k]` / `d.get(k)`. -/
def alookup {α : Type} : List (String × α) → String → Option α
  | [], _ => none
  | (k, v) :: rest, key => if k = key then some v else alookup rest key

/-- Association-list removal of the (first) binding of a key, mirroring
Python `d.pop(k, default)` on dicts, whose keys are unique. -/
def aerase {α : Type} : List (String × α) → String → List (String × α)
  | [], _ => []
  | (k, v) :: rest, key => if k = key then rest else (k, v) :: aerase rest key

/-- Association-list assignment, mirroring Python `d[k] = v`: overwrite
in place when the key is present, append otherwise. -/
def aset {α : Type} : List (String × α) → String → α → List (String × α)
  | [], key, v => [(key, v)]
  | (k, w) :: rest, key, v =>
    if k = key then (key, v) :: rest else (k, w) :: aset rest key v

/-- Association-list bulk assignment, mirroring Python `d.update(other)`:
assign every binding of `upd` in order. -/
def aupdate {α : Type} (xs upd : List (String × α)) : List (String × α) :=
  upd.foldl (fun acc p => aset acc p.1 p.2) xs

/-- Key list of an association list. -/
def akeys {α : Type} (xs : List (String × α)) : List String :=
  xs.map Prod.fst

/-- Map over the values of an association list, keeping keys. -/
def mapVals {α β : Type} (f : α → β) : List (String × α) → List (String × β)
  | [] => []
  | (k, v) :: rest => (k, f v) :: mapVals f rest

/-- The three kind categories of aggs.py: subclasses of `Bucket`, direct
subclasses of `Agg` (metrics), and subclasses of `Pipeline`. -/
inductive Cat where
  | bucket
  | metric
  | pipeline
deriving DecidableEq

/-- Wire names of the `Bucket` subclasses defined in aggs.py 182-351, in
definition order. -/
def bucketKindNames : List String :=
  [ "filter", "filters", "children", "parent", "date_histogram",
    "auto_date_histogram", "adjacency_matrix", "date_range",
    "geo_distance", "geohash_grid", "geohex_grid", "geotile_grid",
    "geo_centroid", "global", "histogram", "ip_range", "ip_prefix",
    "missing", "nested", "range", "rare_terms", "reverse_nested",
    "significant_terms", "significant_text", "terms", "sampler",
    "diversified_sampler", "random_sampler", "composite",
    "variable_width_histogram", "multi_terms", "categorize_text" ]

/-- Wire names of the metric classes (direct `Agg` subclasses, aggs.py
355-435), in definition order. -/
def metricKindNames : List String :=
  [ "top_hits", "avg", "weighted_avg", "cardinality", "extended_stats",
    "boxplot", "geo_bounds", "geo_line", "max", "matrix_stats",
    "median_absolute_deviation", "min", "percentiles",
    "percentile_ranks", "scripted_metric", "stats", "sum",
    "top_metrics", "t_test", "value_count" ]

/-- Wire names of the `Pipeline` subclasses (aggs.py 439-512), in
definition order. -/
def pipelineKindNames : List String :=
  [ "avg_bucket", "bucket_script", "bucket_selector", "cumulative_sum",
    "cumulative_cardinality", "derivative", "extended_stats_bucket",
    "inference", "max_bucket", "min_bucket", "moving_fn", "moving_avg",
    "moving_percentiles", "normalize", "percentiles_bucket",
    "serial_diff", "stats_bucket", "sum_bucket", "bucket_sort" ]

/-- The registry of aggregation classes defined in aggs.py, keyed by the
`name` class attribute (the wire kind tag), with the category read off
the class hierarchy. This models the `_classes` registry that
`DslBase.get_dsl_class` consults. -/
def registry : List (String × Cat) :=
  bucketKindNames.map (fun k => (k, Cat.bucket)) ++
    metricKindNames.map (fun k => (k, Cat.metric)) ++
    pipelineKindNames.map (fun k => (k, Cat.pipeline))

/-- Category of a registered kind tag, `none` when unregistered. -/
def catOf (kind : String) : Option Cat :=
  alookup registry kind

/-- True when the kind tag names a subclass of `Bucket` (the
`isinstance(agg, Bucket)` test of aggs.py line 129). -/
def isBucketKind (kind : String) : Bool :=
  match catOf kind with
  | some .bucket => true
  | _ => false

mutual
/-- A parameter value stored in `_params`: a raw JSON value passed
through unchanged, a query object (opaque to the aggregation core, known
only through its serialized wire object, per the external query
contract), or the `aggs` hash of named child nodes. -/
inductive PVal where
  | json (j : JSON)
  | query (q : List (String × JSON))
  | aggsMap (m : List (String × Agg))

/-- An aggregation node: the `name` class attribute (wire kind tag) plus
the insertion-ordered `_params` mapping. -/
inductive Agg where
  | mk (kind : String) (params : List (String × PVal))
end

/-- Kind tag of a node. -/
def Agg.kindOf : Agg → String
  | .mk kind _ => kind

/-- Parameter map of a node. -/
def Agg.paramsOf : Agg → List (String × PVal)
  | .mk _ ps => ps

/-- The base dict `{self.name: params}` produced by `DslBase.to_dict`. -/
def baseDict (kind : String) (inner : List (String × JSON)) : JSON :=
  .obj [(kind, .obj inner)]

/-- Hoist `key` out of the inner object to a top-level sibling, the
shared pattern of `Agg.to_dict` (meta) and `Bucket.to_dict` (aggs): when
the value under the kind tag is a dict containing `key`, pop it and
assign it at top level (Python dict assignment appends since the key is
new at top level). -/
def hoistKey (key : String) : JSON → JSON
  | .obj ((k, .obj inner) :: rest) =>
    match alookup inner key with
    | some v => .obj (aset ((k, .obj (aerase inner key)) :: rest) key v)
    | none => .obj ((k, .obj inner) :: rest)
  | d => d

/-- The `Filter.to_dict` step (aggs.py 194-199):
`n.update(n.pop("filter", {}))` on the inner object. When the popped
value is not an object the source raises a TypeError inside
`dict.update`; that state is unreachable for well-formed nodes (the
filter slot holds a query, which serializes to an object), and the model
returns the dict unchanged there. -/
def mergeFilter : JSON → JSON
  | .obj ((k, .obj inner) :: rest) =>
    match alookup inner "filter" with
    | some (.obj q) => .obj ((k, .obj (aupdate (aerase inner "filter") q)) :: rest)
    | some _ => .obj ((k, .obj inner) :: rest)
    | none => .obj ((k, .obj inner) :: rest)
  | d => d

/-- Per-kind `to_dict` dispatch: every kind hoists `meta`; bucket kinds
additionally hoist `aggs`; the `filter` kind finally merges its filter
sub-query. Method resolution in the source: `Filter.to_dict` calls
`Bucket.to_dict` via `super()`, which calls `Agg.to_dict` via
`super(AggBase, self)`, which calls `DslBase.to_dict`. -/
def dispatchDict (kind : String) (inner : List (String × JSON)) : JSON :=
  let d1 := hoistKey "meta" (baseDict kind inner)
  match catOf kind with
  | some .bucket =>
    let d2 := hoistKey "aggs" d1
    if kind = "filter" then mergeFilter d2 else d2
  | _ => d1

mutual
/-- Serialization of one parameter value. Raw JSON passes through; a
query serializes to its own wire object; the `aggs` hash serializes each
child with its full `to_dict`. Modelled from the spec: this is the
parameter serialization of `DslBase.to_dict` (utils.py, not among the
sources), which serializes every binding of `_params` in order. -/
def serializePV : PVal → JSON
  | .json j => j
  | .query q => .obj q
  | .aggsMap m => .obj (serializeAggsMap m)

/-- Serialize the `aggs` hash: each named child via its `to_dict`. -/
def serializeAggsMap : List (String × Agg) → List (String × JSON)
  | [] => []
  | (n, a) :: rest => (n, toDict a) :: serializeAggsMap rest

/-- Serialize the parameter map in insertion order, keeping keys. -/
def serializeParams : List (String × PVal) → List (String × JSON)
  | [] => []
  | (k, v) :: rest => (k, serializePV v) :: serializeParams rest

/-- Full `to_dict` of a node, dispatched on the kind exactly as the
class hierarchy does: `DslBase.to_dict` produces the inner object, then
`Agg.to_dict` (aggs.py 98-104) hoists `meta`, then for bucket kinds
`Bucket.to_dict` (173-179) hoists `aggs`, then for the `filter` kind
`Filter.to_dict` (194-199) merges the filter sub-query fields. -/
def toDict : Agg → JSON
  | .mk kind ps => dispatchDict kind (serializeParams ps)
end

example :
    toDict (.mk "terms" [("field", .json (.str "tags"))]) =
      .obj [("terms", .obj [("field", .str "tags")])] := rfl

example :
    toDict (.mk "terms"
        [("field", .json (.str "tags")),
         ("aggs", .aggsMap [("m", .mk "max" [("field", .json (.str "f"))])])]) =
      .obj [("terms", .obj [("field", .str "tags")]),
            ("aggs", .obj [("m", .obj [("max", .obj [("field", .str "f")])])])] := rfl

example :
    toDict (.mk "avg" [("field", .json (.str "f")), ("meta", .json (.obj [("x", .num 1)]))]) =
      .obj [("avg", .obj [("field", .str "f")]), ("meta", .obj [("x", .num 1)])] := rfl

example :
    toDict (.mk "filter"
        [("filter", .query [("term", .obj [("t", .str "v")])]),
         ("aggs", .aggsMap [("m", .mk "max" [])])]) =
      .obj [("filter", .obj [("term", .obj [("t", .str "v")])]),
            ("aggs", .obj [("m", .obj [("max", .obj [])])])] := rfl

/-- Error outcomes of the factory `A` (aggs.py 40-87) and of the
constructor coercion it triggers. The source raises `ValueError` for the
first three (the spec names them AmbiguousInputError,
InvalidShapeError and InvalidArgumentError), a TypeError for a kind-tag
value that is not a mapping, and an unknown-class error from
`get_dsl_class` for an unregistered kind tag. `noFuel` is a model-only
outcome marking an exhausted recursion budget; theorems always supply a
sufficient budget. -/
inductive AErr where
  | ambiguous
  | invalidShape
  | positionalFilter
  | typeErr
  | unknownKind
  | noFuel
deriving DecidableEq

/-- Build every child of a serialized `aggs` hash through the factory,
in order, propagating the first error. Models the hash coercion
`{k: A(v) for k, v in value.items()}` run by the constructor for the
declared `aggs` parameter. Modelled from the spec: the coercion itself
lives in `DslBase` (utils.py, not among the sources); the spec states
that parameters whose schema marks them as aggregations are coerced via
the Node Factory. -/
def childBuild (build : JSON → Except AErr Agg) :
    List (String × JSON) → Except AErr (List (String × Agg))
  | [] => .ok []
  | (n, j) :: rest =>
    match build j, childBuild build rest with
    | .ok a, .ok m => .ok ((n, a) :: m)
    | .error e, _ => .error e
    | .ok _, .error e => .error e

/-- Coerce one constructor parameter according to the declared parameter
schema of the class (`_param_defs`): the `aggs` hash on bucket kinds is
coerced child-by-child through the factory, the `filter` slot of the
`filter` kind is coerced to a query (the external query subsystem turns
a mapping into a query carrying exactly those fields), and every other
value is stored unchanged. Modelled from the spec: the coercion
machinery is `DslBase.__init__` (utils.py, not among the sources). -/
def coerceOne (build : JSON → Except AErr Agg) (cat : Cat) (kind key : String)
    (j : JSON) : Except AErr PVal :=
  if key = "aggs" ∧ cat = Cat.bucket then
    match j with
    | .obj ce => (childBuild build ce).map .aggsMap
    | _ => .error .typeErr
  else if key = "filter" ∧ kind = "filter" then
    match j with
    | .obj q => .ok (.query q)
    | _ => .error .typeErr
  else .ok (.json j)

/-- Coerce a whole keyword-parameter mapping in order. -/
def coerceParams (build : JSON → Except AErr Agg) (cat : Cat) (kind : String) :
    List (String × JSON) → Except AErr (List (String × PVal))
  | [] => .ok []
  | (k, j) :: rest =>
    match coerceOne build cat kind k j, coerceParams build cat kind rest with
    | .ok v, .ok ps => .ok ((k, v) :: ps)
    | .error e, _ => .error e
    | .ok _, .error e => .error e

/-- Resolve the kind tag in the registry and run the constructor:
`Agg.get_dsl_class(agg_type)(...)` (aggs.py 76 and 87). An unregistered
tag is a hard error; otherwise the parameters are coerced per the class
parameter schema and the node is built. -/
def constructA (build : JSON → Except AErr Agg) (kind : String)
    (ps : List (String × JSON)) : Except AErr Agg :=
  match catOf kind with
  | none => .error .unknownKind
  | some cat => (coerceParams build cat kind ps).map (.mk kind)

/-- One step of the factory on a positional value, with recursion
delegated to `build`. Mirrors aggs.py 53-87 for a mapping input: deep
copy (a no-op on immutable values), pop `aggs`, pop `meta`, require
exactly one remaining key, re-attach truthy `aggs` and `meta` as
constructor parameters, resolve and construct. A string input resolves
the registry directly. Any other value reaches `get_dsl_class` and
fails. A non-mapping value under the kind tag makes the `**params`
unpacking raise (modelled as `typeErr`). -/
def buildStep (build : JSON → Except AErr Agg) : JSON → Except AErr Agg
  | .obj entries =>
    let aggsOpt := alookup entries "aggs"
    let e1 := aerase entries "aggs"
    let metaOpt := alookup e1 "meta"
    let e2 := aerase e1 "meta"
    match e2 with
    | [(kind, inner)] =>
      match inner with
      | .obj ps0 =>
        let ps1 := match aggsOpt with
          | some a => if truthy a then aset ps0 "aggs" a else ps0
          | none => ps0
        let ps2 := match metaOpt with
          | some m => if truthy m then aset ps1 "meta" m else ps1
          | none => ps1
        constructA build kind ps2
      | _ => .error .typeErr
    | _ => .error .invalidShape
  | .str s => constructA build s []
  | _ => .error .unknownKind

/-- The factory `A` on a wire-format JSON input, with a recursion budget
that decreases once per nested node. -/
def buildNodeF : Nat → JSON → Except AErr Agg
  | 0, _ => .error .noFuel
  | f + 1, j => buildStep (buildNodeF f) j

/-- The three input shapes of the factory `A`: a wire-format mapping, an
existing node instance, or a kind-tag string. -/
inductive AInput where
  | wire (j : JSON)
  | node (a : Agg)
  | name (s : String)

/-- The full factory `A(name_or_agg, filter=None, **params)` of aggs.py
40-87: the positional `filter` argument is accepted only for the literal
kind tag `"filter"` and is injected into the keyword parameters; a
mapping or an existing node combined with non-empty keyword parameters
is an error; an existing node alone is returned unchanged. -/
def ACallF (f : Nat) (inp : AInput) (filterArg : Option JSON)
    (params : List (String × JSON)) : Except AErr Agg :=
  match filterArg with
  | some fq =>
    match inp with
    | .name s =>
      if s = "filter" then
        constructA (buildNodeF f) s (aset params "filter" fq)
      else .error .positionalFilter
    | _ => .error .positionalFilter
  | none =>
    match inp with
    | .wire j => if params.isEmpty then buildNodeF f j else .error .ambiguous
    | .node a => if params.isEmpty then .ok a else .error .ambiguous
    | .name s => constructA (buildNodeF f) s params

mutual
/-- Node size, used to supply sufficient recursion budgets. -/
def asize : Agg → Nat
  | .mk _ ps => psize ps + 1

def psize : List (String × PVal) → Nat
  | [] => 0
  | (_, v) :: rest => vsize v + psize rest

def vsize : PVal → Nat
  | .json _ => 0
  | .query _ => 0
  | .aggsMap m => msize m

def msize : List (String × Agg) → Nat
  | [] => 0
  | (_, a) :: rest => asize a + msize rest
end

mutual
/-- Structural well-formedness of a node, capturing exactly the states
the factory and the declared parameter schemas can produce: the kind is
registered; parameter keys are unique; the `aggs` hash appears only
under the key `aggs` on bucket kinds, and conversely the `aggs` key of a
bucket kind holds the hash; a query value appears only in the `filter`
slot of the `filter` kind, and conversely that slot holds a query; query
wire objects are keyed by query-kind tags, so their keys are unique and
distinct from the reserved aggregation keys `filter`, `aggs`, `meta`;
child names are unique and children are recursively well-formed. -/
def wfAgg : Agg → Bool
  | .mk kind ps =>
    (catOf kind).isSome && (akeys ps).Nodup && wfParams kind ps

def wfParams : String → List (String × PVal) → Bool
  | _, [] => true
  | kind, (k, v) :: rest => wfParam kind k v && wfParams kind rest

def wfParam : String → String → PVal → Bool
  | kind, k, .json _ =>
    !(k == "aggs" && isBucketKind kind) && !(k == "filter" && kind == "filter")
  | kind, k, .query q =>
    kind == "filter" && k == "filter" && (akeys q).Nodup &&
      !(akeys q).contains "filter" && !(akeys q).contains "aggs" &&
      !(akeys q).contains "meta"
  | kind, k, .aggsMap m =>
    k == "aggs" && isBucketKind kind && (akeys m).Nodup && wfAggsMap m

def wfAggsMap : List (String × Agg) → Bool
  | [] => true
  | (_, a) :: rest => wfAgg a && wfAggsMap rest
end

mutual
/-- Round-trip side conditions on top of well-formedness: every `aggs`
hash in the tree is non-empty and every `meta` parameter is truthy.
Without these the factory drops the hoisted empty `aggs` or falsy `meta`
on re-parse (the `if aggs:` / `if meta:` guards, aggs.py 70 and 73). -/
def rtAgg : Agg → Bool
  | .mk _ ps => rtParams ps

def rtParams : List (String × PVal) → Bool
  | [] => true
  | (k, v) :: rest => rtParam k v && rtParams rest

def rtParam : String → PVal → Bool
  | k, .json j => !(k == "meta") || truthy j
  | _, .query _ => true
  | _, .aggsMap m => !m.isEmpty && rtAggsMap m

def rtAggsMap : List (String × Agg) → Bool
  | [] => true
  | (_, a) :: rest => rtAgg a && rtAggsMap rest
end

/-- The response view classes of `response/aggs.py` that the per-class
`result` methods instantiate. -/
inductive RView where
  | aggResponse
  | bucketData
  | fieldBucketData
  | topHitsData
deriving DecidableEq

/-- Which response view `node.result(search, data)` wraps the raw data
in, read off the `result` overrides of aggs.py: `DateHistogram` (226,
inherited by `AutoDateHistogram`), `Histogram` (269), `RareTerms` (296),
`Terms` (315) and `VariableWidthHistogram` (342) return
`FieldBucketData`; `TopHits` (358) returns `TopHitsData`; every other
bucket kind uses `AggBase.result` (163) returning `BucketData`; every
other metric and pipeline kind uses `Agg.result` (106) returning
`AggResponse`. -/
def resultView (kind : String) : RView :=
  match kind with
  | "date_histogram" => .fieldBucketData
  | "auto_date_histogram" => .fieldBucketData
  | "histogram" => .fieldBucketData
  | "rare_terms" => .fieldBucketData
  | "terms" => .fieldBucketData
  | "variable_width_histogram" => .fieldBucketData
  | "top_hits" => .topHitsData
  | _ =>
    match catOf kind with
    | some .bucket => .bucketData
    | _ => .aggResponse

example :
    buildNodeF 3 (.obj [("terms", .obj [("field", .str "tags")]),
        ("aggs", .obj [("x", .obj [("max", .obj [("field", .str "y")])])])]) =
      .ok (.mk "terms" [("field", .json (.str "tags")),
        ("aggs", .aggsMap [("x", .mk "max" [("field", .json (.str "y"))])])]) := rfl

example :
    buildNodeF 3 (.obj [("a", .obj []), ("b", .obj [])]) = .error .invalidShape := rfl

example : buildNodeF 3 (.obj [("terms", .num 5)]) = .error .typeErr := rfl

example :
    buildNodeF 3 (.obj [("terms", .obj []), ("meta", .obj [])]) =
      .ok (.mk "terms" []) := rfl

example : resultView "multi_terms" = .bucketData := rfl

example : resultView "terms" = .fieldBucketData := rfl

/-- A parameter value as stored on a live (heap-allocated) node: a raw
JSON value, a query wire object, or the `aggs` dict mapping child names
to heap addresses. The hash coercion run on construction copies the dict
itself (spec 4.2: the shallow copy preserves the children by reference
while decoupling the containing object), so the name-to-child map is
stored inline per node and only child nodes are shared through
addresses. -/
inductive HVal where
  | js (j : JSON)
  | qry (q : List (String × JSON))
  | kids (m : List (String × Nat))

/-- A live aggregation object: kind tag, parameter dict, and the `_base`
chaining anchor set by `Bucket.__init__` (aggs.py 167-171). For
non-bucket kinds the anchor field is never read; the model stores the
own address there uniformly. -/
structure HNode where
  kind : String
  params : List (String × HVal)
  base : Nat

/-- The object heap: a list of nodes indexed by allocation order. -/
def Heap := List HNode

/-- Read a node, with a junk node for dangling addresses (never reached
under the validity hypotheses of the theorems). -/
def getN (h : Heap) (a : Nat) : HNode :=
  List.getD h a ⟨"", [], 0⟩

/-- Replace the node stored at an address. -/
def setN (h : Heap) (a : Nat) (n : HNode) : Heap :=
  List.set h a n

/-- Number of allocated addresses. -/
def hlen (h : Heap) : Nat :=
  List.length h

/-- Allocate a fresh node at the next address. -/
def allocN (h : Heap) (n : HNode) : Heap × Nat :=
  (List.append h [n], hlen h)

/-- The `aggs` child dict of a node, when present and well-typed. -/
def kidsOf (ps : List (String × HVal)) : Option (List (String × Nat)) :=
  match alookup ps "aggs" with
  | some (.kids m) => some m
  | _ => none

/-- Child address stored under a name in the `aggs` dict of the node at
address `b`. -/
def storedChild (h : Heap) (b : Nat) (name : String) : Option Nat :=
  match kidsOf (getN h b).params with
  | some m => alookup m name
  | none => none

/-- `AggBase.__getitem__` (aggs.py 122-134) on the node at `b`:
`self._params.setdefault("aggs", {})[agg_name]` (the setdefault mutation
persists even when the name lookup then fails), and when the resolved
child is a Bucket instance, construct a shallow copy through the factory
(fresh parameter dict, same child references, `_base` pointing at the
copy itself per `Bucket.__init__`), store the copy back under the name,
and return it; a non-bucket child is returned as stored. Returns the
heap after the call and the returned address, `none` on KeyError. -/
def hGet (h : Heap) (b : Nat) (name : String) : Heap × Option Nat :=
  let nb := getN h b
  match alookup nb.params "aggs" with
  | some (.kids m) =>
    match alookup m name with
    | none => (h, none)
    | some c =>
      if isBucketKind (getN h c).kind then
        let copy : HNode := ⟨(getN h c).kind, (getN h c).params, hlen h⟩
        let (h1, a) := allocN h copy
        let nb1 := getN h1 b
        let h2 := setN h1 b ⟨nb1.kind, aset nb1.params "aggs" (.kids (aset m name a)), nb1.base⟩
        (h2, some a)
      else (h, some c)
  | some _ => (h, none)
  | none =>
    let h1 := setN h b ⟨nb.kind, aset nb.params "aggs" (.kids []), nb.base⟩
    (h1, none)

/-- `AggBase.__setitem__` (aggs.py 136-137): store a node reference
under a name in the `aggs` dict (`A` on an existing instance is the
identity). The dict is created when absent. -/
def hSetItem (h : Heap) (b : Nat) (name : String) (v : Nat) : Heap :=
  let nb := getN h b
  let m := match kidsOf nb.params with
    | some m => m
    | none => []
  setN h b ⟨nb.kind, aset nb.params "aggs" (.kids (aset m name v)), nb.base⟩

/-- Construct a fresh node through the factory (`A(agg_type, **params)`)
and allocate it: `Bucket.__init__` records the new object itself as the
chaining anchor. Returns the heap and the new address. -/
def hConstruct (h : Heap) (kind : String) (ps : List (String × HVal)) : Heap × Nat :=
  allocN h ⟨kind, ps, hlen h⟩

/-- `AggBase._agg` (aggs.py 142-152): build the new node, store it under
the name, then return the new node when `bucket` is true and the stored
`_base` anchor of the receiver otherwise. -/
def hAgg (h : Heap) (b : Nat) (isB : Bool) (name kind : String)
    (ps : List (String × HVal)) : Heap × Nat :=
  let (h1, a) := hConstruct h kind ps
  let h2 := hSetItem h1 b name a
  (h2, if isB then a else (getN h2 b).base)

/-- `AggBase.bucket` (aggs.py 157-158). -/
def hBucket (h : Heap) (b : Nat) (name kind : String)
    (ps : List (String × HVal)) : Heap × Nat :=
  hAgg h b true name kind ps

/-- `AggBase.metric` (aggs.py 154-155). -/
def hMetric (h : Heap) (b : Nat) (name kind : String)
    (ps : List (String × HVal)) : Heap × Nat :=
  hAgg h b false name kind ps

/-- `AggBase.pipeline` (aggs.py 160-161). -/
def hPipeline (h : Heap) (b : Nat) (name kind : String)
    (ps : List (String × HVal)) : Heap × Nat :=
  hAgg h b false name kind ps

/-- Mutate one parameter of the node at `a` (Python
`agg._params[key] = value`, e.g. through attribute assignment). -/
def hMutate (h : Heap) (a : Nat) (key : String) (v : HVal) : Heap :=
  let n := getN h a
  setN h a ⟨n.kind, aset n.params key v, n.base⟩

/-- The container operations a caller can run on a tree of live nodes,
used to quantify over arbitrary interleavings of chained calls. -/
inductive HOp where
  | get (b : Nat) (name : String)
  | set (b : Nat) (name : String) (v : Nat)
  | addBucket (b : Nat) (name kind : String) (ps : List (String × HVal))
  | addMetric (b : Nat) (name kind : String) (ps : List (String × HVal))
  | addPipeline (b : Nat) (name kind : String) (ps : List (String × HVal))
  | mutate (a : Nat) (key : String) (v : HVal)

/-- Heap effect of one operation. -/
def hStep (h : Heap) : HOp → Heap
  | .get b name => (hGet h b name).1
  | .set b name v => hSetItem h b name v
  | .addBucket b name kind ps => (hBucket h b name kind ps).1
  | .addMetric b name kind ps => (hMetric h b name kind ps).1
  | .addPipeline b name kind ps => (hPipeline h b name kind ps).1
  | .mutate a key v => hMutate h a key v

/-- Heap after a sequence of operations. -/
def runOps (h : Heap) : List HOp → Heap
  | [] => h
  | op :: rest => runOps (hStep h op) rest

/-- Convert the child dict, resolving each address through `conv`. -/
def hToValKids (conv : Nat → Option Agg) :
    List (String × Nat) → Option (List (String × Agg))
  | [] => some []
  | (n, a) :: rest =>
    match conv a, hToValKids conv rest with
    | some c, some cs => some ((n, c) :: cs)
    | _, _ => none

/-- Convert a live parameter dict, child references through `conv`. -/
def hToValParams (conv : Nat → Option Agg) :
    List (String × HVal) → Option (List (String × PVal))
  | [] => some []
  | (k, .js j) :: rest =>
    (hToValParams conv rest).map (fun ps => (k, .json j) :: ps)
  | (k, .qry q) :: rest =>
    (hToValParams conv rest).map (fun ps => (k, .query q) :: ps)
  | (k, .kids m) :: rest =>
    match hToValKids conv m, hToValParams conv rest with
    | some cs, some ps => some ((k, .aggsMap cs) :: ps)
    | _, _ => none

/-- Convert a live node back to a value-model node, following child
references (the budget bounds reference-chain depth; heaps built by the
operations above are acyclic). Used to serialize a live tree with
`toDict`. -/
def hToValF : Nat → Heap → Nat → Option Agg
  | 0, _, _ => none
  | f + 1, h, a =>
    (hToValParams (hToValF f h) (getN h a).params).map (.mk (getN h a).kind)

/-- Serialize the live tree rooted at an address. -/
def hToDictF (f : Nat) (h : Heap) (a : Nat) : Option JSON :=
  (hToValF f h a).map toDict

lemma mem_akeys {α : Type} {xs : List (String × α)} {k : String} :
    k ∈ akeys xs ↔ ∃ v, (k, v) ∈ xs := by
  simp only [akeys, List.mem_map]
  constructor
  · rintro ⟨⟨a, b⟩, hm, rfl⟩
    exact ⟨b, hm⟩
  · rintro ⟨v, hv⟩
    exact ⟨(k, v), hv, rfl⟩

lemma alookup_mem {α : Type} {xs : List (String × α)} {k : String} {v : α}
    (h : alookup xs k = some v) : (k, v) ∈ xs := by
  induction xs with
  | nil => simp [alookup] at h
  | cons p rest ih =>
    obtain ⟨k1, v1⟩ := p
    by_cases hk : k1 = k
    · subst hk
      simp [alookup] at h
      simp [h]
    · simp only [alookup, if_neg hk] at h
      exact List.mem_cons_of_mem _ (ih h)

lemma mem_alookup {α : Type} {xs : List (String × α)} {k : String} {v : α}
    (hnd : (akeys xs).Nodup) (h : (k, v) ∈ xs) : alookup xs k = some v := by
  induction xs with
  | nil => simp at h
  | cons p rest ih =>
    obtain ⟨k1, v1⟩ := p
    simp only [akeys, List.map_cons, List.nodup_cons] at hnd
    rcases List.mem_cons.mp h with heq | hmem
    · rw [show k1 = k from (Prod.ext_iff.mp heq.symm).1,
        show v1 = v from (Prod.ext_iff.mp heq.symm).2]
      simp [alookup]
    · have hne : k1 ≠ k := by
        intro hkk
        subst hkk
        exact hnd.1 (mem_akeys.mpr ⟨v, hmem⟩)
      simp only [alookup, if_neg hne]
      exact ih hnd.2 hmem

lemma alookup_not_mem {α : Type} {xs : List (String × α)} {k : String}
    (h : ¬ k ∈ akeys xs) : alookup xs k = none := by
  induction xs with
  | nil => rfl
  | cons p rest ih =>
    obtain ⟨k1, v1⟩ := p
    simp only [akeys, List.map_cons, List.mem_cons] at h
    push_neg at h
    have hne : k1 ≠ k := fun he => h.1 he.symm
    simp only [alookup, if_neg hne]
    exact ih (by simpa [akeys] using h.2)

lemma akeys_aerase_subset {α : Type} (xs : List (String × α)) (k : String) :
    akeys (aerase xs k) ⊆ akeys xs := by
  induction xs with
  | nil => simp [aerase]
  | cons p rest ih =>
    obtain ⟨k1, v1⟩ := p
    by_cases hk : k1 = k
    · simp only [aerase, if_pos hk, akeys, List.map_cons]
      exact List.subset_cons_of_subset _ (by simp [akeys])
    · simp only [aerase, if_neg hk, akeys, List.map_cons]
      exact List.cons_subset_cons _ ih

lemma akeys_aerase_nodup {α : Type} {xs : List (String × α)} (k : String)
    (h : (akeys xs).Nodup) : (akeys (aerase xs k)).Nodup := by
  induction xs with
  | nil => simpa [aerase] using h
  | cons p rest ih =>
    obtain ⟨k1, v1⟩ := p
    simp only [akeys, List.map_cons, List.nodup_cons] at h
    by_cases hk : k1 = k
    · simpa [aerase, hk, akeys] using h.2
    · simp only [aerase, if_neg hk, akeys, List.map_cons, List.nodup_cons]
      exact ⟨fun hmem => h.1 (akeys_aerase_subset rest k hmem), ih h.2⟩

lemma alookup_aerase_of_ne {α : Type} (xs : List (String × α)) {k key : String}
    (h : key ≠ k) : alookup (aerase xs k) key = alookup xs key := by
  induction xs with
  | nil => rfl
  | cons p rest ih =>
    obtain ⟨k1, v1⟩ := p
    by_cases hk : k1 = k
    · subst hk
      have : k1 ≠ key := fun he => h (he.symm)
      simp [aerase, alookup, this]
    · by_cases hkey : k1 = key
      · simp [aerase, hk, alookup, hkey, h]
      · simp [aerase, hk, alookup, hkey, ih]

lemma alookup_aerase_self {α : Type} {xs : List (String × α)} {k : String}
    (h : (akeys xs).Nodup) : alookup (aerase xs k) k = none := by
  induction xs with
  | nil => rfl
  | cons p rest ih =>
    obtain ⟨k1, v1⟩ := p
    simp only [akeys, List.map_cons, List.nodup_cons] at h
    by_cases hk : k1 = k
    · subst hk
      simp only [aerase, if_pos rfl]
      exact alookup_not_mem h.1
    · simp only [aerase, if_neg hk, alookup, if_neg hk]
      exact ih h.2

lemma aerase_not_mem {α : Type} {xs : List (String × α)} {k : String}
    (h : ¬ k ∈ akeys xs) : aerase xs k = xs := by
  induction xs with
  | nil => rfl
  | cons p rest ih =>
    obtain ⟨k1, v1⟩ := p
    simp only [akeys, List.map_cons, List.mem_cons] at h
    push_neg at h
    have hne : k1 ≠ k := fun he => h.1 he.symm
    simp only [aerase, if_neg hne]
    rw [ih (by simpa [akeys] using h.2)]

lemma aset_not_mem {α : Type} {xs : List (String × α)} {k : String} (v : α)
    (h : ¬ k ∈ akeys xs) : aset xs k v = xs ++ [(k, v)] := by
  induction xs with
  | nil => rfl
  | cons p rest ih =>
    obtain ⟨k1, v1⟩ := p
    simp only [akeys, List.map_cons, List.mem_cons] at h
    push_neg at h
    have hne : k1 ≠ k := fun he => h.1 he.symm
    simp only [aset, if_neg hne, List.cons_append]
    rw [ih (by simpa [akeys] using h.2)]

lemma alookup_append {α : Type} (xs ys : List (String × α)) (k : String) :
    alookup (xs ++ ys) k =
      match alookup xs k with
      | some v => some v
      | none => alookup ys k := by
  induction xs with
  | nil => simp [alookup]
  | cons p rest ih =>
    obtain ⟨k1, v1⟩ := p
    by_cases hk : k1 = k
    · simp [alookup, hk]
    · simpa [alookup, hk] using ih

lemma akeys_mapVals {α β : Type} (f : α → β) (xs : List (String × α)) :
    akeys (mapVals f xs) = akeys xs := by
  induction xs with
  | nil => rfl
  | cons p rest ih =>
    obtain ⟨k1, v1⟩ := p
    simp only [mapVals, akeys, List.map_cons] at ih ⊢
    rw [ih]

lemma alookup_mapVals {α β : Type} (f : α → β) (xs : List (String × α)) (k : String) :
    alookup (mapVals f xs) k = (alookup xs k).map f := by
  induction xs with
  | nil => rfl
  | cons p rest ih =>
    obtain ⟨k1, v1⟩ := p
    by_cases hk : k1 = k
    · simp [mapVals, alookup, hk]
    · simp [mapVals, alookup, hk, ih]

lemma aerase_mapVals {α β : Type} (f : α → β) (xs : List (String × α)) (k : String) :
    aerase (mapVals f xs) k = mapVals f (aerase xs k) := by
  induction xs with
  | nil => rfl
  | cons p rest ih =>
    obtain ⟨k1, v1⟩ := p
    by_cases hk : k1 = k
    · simp [mapVals, aerase, hk]
    · simp [mapVals, aerase, hk, ih]

lemma alookup_isSome_of_mem {α : Type} {xs : List (String × α)} {k : String}
    {v : α} (h : (k, v) ∈ xs) : (alookup xs k).isSome = true := by
  induction xs with
  | nil => simp at h
  | cons p rest ih =>
    obtain ⟨k1, v1⟩ := p
    by_cases hk : k1 = k
    · simp [alookup, hk]
    · simp only [alookup, if_neg hk]
      rcases List.mem_cons.mp h with heq | hmem
      · exact absurd (Prod.ext_iff.mp heq.symm).1 hk
      · exact ih hmem

lemma registered_mem_names {k : String} {c : Cat} (h : catOf k = some c) :
    k ∈ bucketKindNames ∨ k ∈ metricKindNames ∨ k ∈ pipelineKindNames := by
  have hmem := alookup_mem h
  simp only [registry] at hmem
  rcases List.mem_append.mp hmem with h1 | h2
  · rcases List.mem_append.mp h1 with ha | hb
    · refine Or.inl ?_
      obtain ⟨x, hx, he⟩ := List.mem_map.mp ha
      cases he
      exact hx
    · refine Or.inr (Or.inl ?_)
      obtain ⟨x, hx, he⟩ := List.mem_map.mp hb
      cases he
      exact hx
  · refine Or.inr (Or.inr ?_)
    obtain ⟨x, hx, he⟩ := List.mem_map.mp h2
    cases he
    exact hx

lemma bucket_mem_names {k : String} (h : catOf k = some Cat.bucket) :
    k ∈ bucketKindNames := by
  have hmem := alookup_mem h
  simp only [registry] at hmem
  rcases List.mem_append.mp hmem with h1 | h2
  · rcases List.mem_append.mp h1 with ha | hb
    · obtain ⟨x, hx, he⟩ := List.mem_map.mp ha
      cases he
      exact hx
    · obtain ⟨x, hx, he⟩ := List.mem_map.mp hb
      simp at he
  · obtain ⟨x, hx, he⟩ := List.mem_map.mp h2
    simp at he

/-- Registered kind tags are never the reserved serialization keys. -/
lemma registered_not_reserved {k : String} {c : Cat} (h : catOf k = some c) :
    k ≠ "aggs" ∧ k ≠ "meta" := by
  rcases registered_mem_names h with hm | hm | hm <;>
    · fin_cases hm <;> simp

/-- The six bucket kinds whose `result` method is overridden to return
`FieldBucketData` (aggs.py 223-227, 266-270, 293-297, 312-316, 339-343,
and `AutoDateHistogram` inheriting from `DateHistogram`). -/
def fieldBucketKinds : List String :=
  [ "terms", "rare_terms", "histogram", "date_histogram",
    "auto_date_histogram", "variable_width_histogram" ]

lemma resultView_on_buckets :
    bucketKindNames.all (fun k =>
      resultView k ==
        (if fieldBucketKinds.contains k then RView.fieldBucketData
         else RView.bucketData)) = true := rfl

/-- Claim C3 (amended): materializing a response against a bucket-kind
node produces the FieldBucketData view for exactly the six
field-partitioning kinds terms, rare_terms, histogram, date_histogram,
auto_date_histogram and variable_width_histogram, and the generic
BucketData view for every other bucket kind — including multi_terms,
whose class does not override `result`. -/
theorem c3_field_bucket_dispatch (k : String) (h : catOf k = some Cat.bucket) :
    resultView k =
      (if fieldBucketKinds.contains k then RView.fieldBucketData
       else RView.bucketData) := by
  have hmem := bucket_mem_names h
  have := List.all_eq_true.mp resultView_on_buckets k hmem
  exact eq_of_beq this

/-- Witness for C3: the `terms` kind is a bucket kind and materializes
to FieldBucketData. -/
theorem c3_witness :
    catOf "terms" = some Cat.bucket ∧
      resultView "terms" =
        (if fieldBucketKinds.contains "terms" then RView.fieldBucketData
         else RView.bucketData) :=
  ⟨rfl, c3_field_bucket_dispatch "terms" rfl⟩

/-- Counterexample to C3 as stated: multi_terms is a bucket kind, the
claim lists it among the seven field-partitioning kinds, yet
`MultiTerms` (aggs.py 346-347) does not override `result`, so
materializing against a multi_terms node produces the generic BucketData
view, not FieldBucketData. -/
theorem c3_counterexample :
    catOf "multi_terms" = some Cat.bucket ∧
      resultView "multi_terms" = RView.bucketData ∧
      resultView "multi_terms" ≠ RView.fieldBucketData :=
  ⟨rfl, rfl, by decide⟩

/-- Claim C9: the factory raises AmbiguousInputError when a wire-format
mapping or an existing node instance is combined with non-empty keyword
parameters, and an existing node instance with no parameters is returned
unchanged (aggs.py 54-56 and 79-84). -/
theorem c9_ambiguous_and_identity :
    (∀ (f : Nat) (j : JSON) (ps : List (String × JSON)), ps ≠ [] →
        ACallF f (.wire j) none ps = .error .ambiguous) ∧
      (∀ (f : Nat) (a : Agg) (ps : List (String × JSON)), ps ≠ [] →
        ACallF f (.node a) none ps = .error .ambiguous) ∧
      (∀ (f : Nat) (a : Agg), ACallF f (.node a) none [] = .ok a) := by
  refine ⟨?_, ?_, ?_⟩
  · intro f j ps hne
    simp [ACallF, List.isEmpty_iff, hne]
  · intro f a ps hne
    simp [ACallF, List.isEmpty_iff, hne]
  · intro f a
    rfl

/-- Witness for C9 at concrete inputs: a terms wire mapping with an
extra keyword parameter, an existing node with an extra keyword
parameter, and an existing node alone. -/
theorem c9_witness :
    ACallF 3 (.wire (.obj [("terms", .obj [])])) none [("field", .str "t")] =
        .error .ambiguous ∧
      ACallF 3 (.node (.mk "max" [])) none [("field", .str "t")] =
        .error .ambiguous ∧
      ACallF 3 (.node (.mk "max" [])) none [] = .ok (.mk "max" []) :=
  ⟨c9_ambiguous_and_identity.1 3 _ _ (by simp),
    c9_ambiguous_and_identity.2.1 3 _ _ (by simp),
    c9_ambiguous_and_identity.2.2 3 _⟩

/-- Claim C7: building from the wire-format mapping of a terms
aggregation with a nested `aggs` section extracts the reserved `aggs`
key, re-attaches it as a constructor parameter, and yields a node with
kind `terms`, ordinary parameters holding only the field, and exactly
one child named `x` of kind `max` (aggs.py 54-76). -/
theorem c7_reserved_keys_reattached :
    buildNodeF 3 (.obj [("terms", .obj [("field", .str "tags")]),
        ("aggs", .obj [("x", .obj [("max", .obj [("field", .str "y")])])])]) =
      .ok (.mk "terms" [("field", .json (.str "tags")),
        ("aggs", .aggsMap [("x", .mk "max" [("field", .json (.str "y"))])])]) := rfl

/-- The non-reserved entries of a wire mapping: what remains after the
factory pops `aggs` and then `meta` (aggs.py 60-62). -/
def nonReserved (entries : List (String × JSON)) : List (String × JSON) :=
  aerase (aerase entries "aggs") "meta"

lemma alookup_eq_none {α : Type} {xs : List (String × α)} {k : String} :
    alookup xs k = none ↔ ¬ k ∈ akeys xs := by
  constructor
  · intro h hmem
    obtain ⟨v, hv⟩ := mem_akeys.mp hmem
    have := alookup_isSome_of_mem hv
    rw [h] at this
    exact Bool.noConfusion this
  · exact alookup_not_mem

lemma mem_aset_keys {α : Type} {xs : List (String × α)} {k : String} {v : α}
    {p : String × α} (h : p ∈ aset xs k v) : p.1 ∈ akeys xs ∨ p.1 = k := by
  induction xs with
  | nil =>
    simp [aset] at h
    simp [h]
  | cons q rest ih =>
    obtain ⟨k1, v1⟩ := q
    by_cases hk : k1 = k
    · simp only [aset, if_pos hk] at h
      rcases List.mem_cons.mp h with heq | hmem
      · right
        rw [heq]
      · left
        simp only [akeys, List.map_cons, List.mem_cons]
        exact Or.inr (by
          simpa [akeys] using List.mem_map_of_mem Prod.fst hmem)
    · simp only [aset, if_neg hk] at h
      rcases List.mem_cons.mp h with heq | hmem
      · left
        rw [heq]
        simp [akeys]
      · rcases ih hmem with hin | hkk
        · left
          simp only [akeys, List.map_cons, List.mem_cons]
          exact Or.inr (by simpa [akeys] using hin)
        · right
          exact hkk

/-- When no parameter triggers a declared coercion, the constructor
stores every keyword parameter unchanged. -/
lemma coerceParams_raw {build : JSON → Except AErr Agg} {cat : Cat}
    {kind : String} {ps : List (String × JSON)}
    (h : ∀ p ∈ ps, ¬(p.1 = "aggs" ∧ cat = Cat.bucket) ∧
      ¬(p.1 = "filter" ∧ kind = "filter")) :
    coerceParams build cat kind ps = .ok (mapVals PVal.json ps) := by
  induction ps with
  | nil => rfl
  | cons p rest ih =>
    obtain ⟨k, j⟩ := p
    have hp := h (k, j) (by simp)
    have hrest := ih (fun q hq => h q (List.mem_cons_of_mem _ hq))
    simp only [coerceParams, coerceOne, mapVals]
    rw [if_neg (by simpa using hp.1), if_neg (by simpa using hp.2), hrest]

/-- Claim C8 (amended): building from a wire-format mapping fails with
InvalidShapeError whenever zero or more than one key remain after the
reserved keys `aggs` and `meta` are removed; with exactly one remaining
key the build succeeds provided the kind is registered, the value under
the kind tag is itself a mapping, and no entry requiring a recursive
aggregation or query build is present (no top-level `aggs` section, no
`aggs` key inside the inner mapping, and no `filter` key inside the
inner mapping of the `filter` kind). -/
theorem c8_invalid_shape (f : Nat) (entries : List (String × JSON)) :
    ((nonReserved entries).length ≠ 1 →
      buildNodeF (f + 1) (.obj entries) = .error .invalidShape) ∧
      (∀ (k : String) (ps0 : List (String × JSON)),
        nonReserved entries = [(k, .obj ps0)] →
        (catOf k).isSome = true →
        alookup entries "aggs" = none →
        alookup ps0 "aggs" = none →
        (k = "filter" → alookup ps0 "filter" = none) →
        ∃ a, buildNodeF (f + 1) (.obj entries) = .ok a) := by
  constructor
  · intro hlen
    simp only [buildNodeF, buildStep]
    rcases hnr : aerase (aerase entries "aggs") "meta" with _ | ⟨⟨k, v⟩, rest⟩
    · rfl
    · rcases rest with _ | ⟨q, rest2⟩
      · exfalso
        apply hlen
        simp [nonReserved, hnr]
      · rfl
  · intro k ps0 hnr hreg htop hinner hfk
    simp only [nonReserved] at hnr
    rcases hcat : catOf k with _ | cat
    · rw [hcat] at hreg
      simp at hreg
    · have hcond : ∀ (ps2 : List (String × JSON)),
          (∀ p ∈ ps2, p.1 ∈ akeys ps0 ∨ p.1 = "meta") →
          ∀ p ∈ ps2, ¬(p.1 = "aggs" ∧ cat = Cat.bucket) ∧
            ¬(p.1 = "filter" ∧ k = "filter") := by
        intro ps2 hsub p hp
        rcases hsub p hp with hin | hme
        · constructor
          · rintro ⟨h1, _⟩
            rw [h1] at hin
            exact (alookup_eq_none.mp hinner) hin
          · rintro ⟨h1, h2⟩
            rw [h1] at hin
            exact (alookup_eq_none.mp (hfk h2)) hin
        · constructor
          · rintro ⟨h1, _⟩
            rw [h1] at hme
            exact absurd hme (by decide)
          · rintro ⟨h1, _⟩
            rw [h1] at hme
            exact absurd hme (by decide)
      rcases hm : alookup (aerase entries "aggs") "meta" with _ | m
      · refine ⟨.mk k (mapVals PVal.json ps0), ?_⟩
        simp only [buildNodeF, buildStep, htop, hnr, hm, constructA, hcat]
        rw [coerceParams_raw (hcond ps0
          (fun p hp => Or.inl (mem_akeys.mpr ⟨p.2, by simpa using hp⟩)))]
        rfl
      · cases htr : truthy m
        · refine ⟨.mk k (mapVals PVal.json ps0), ?_⟩
          simp only [buildNodeF, buildStep, htop, hnr, hm, constructA, hcat]
          rw [if_neg (by rw [htr]; exact Bool.false_ne_true)]
          rw [coerceParams_raw (hcond ps0
            (fun p hp => Or.inl (mem_akeys.mpr ⟨p.2, by simpa using hp⟩)))]
          rfl
        · refine ⟨.mk k (mapVals PVal.json (aset ps0 "meta" m)), ?_⟩
          simp only [buildNodeF, buildStep, htop, hnr, hm, constructA, hcat]
          rw [if_pos htr]
          rw [coerceParams_raw (hcond (aset ps0 "meta" m)
            (fun p hp => mem_aset_keys hp))]
          rfl

/-- Witness for C8: a two-key mapping fails with InvalidShapeError, and
a one-key terms mapping builds successfully. -/
theorem c8_witness :
    buildNodeF 3 (.obj [("a", .obj []), ("b", .obj [])]) =
        .error .invalidShape ∧
      ∃ a, buildNodeF 3 (.obj [("terms", .obj [("field", .str "x")])]) = .ok a :=
  ⟨(c8_invalid_shape 2 [("a", .obj []), ("b", .obj [])]).1 (by decide),
    (c8_invalid_shape 2 [("terms", .obj [("field", .str "x")])]).2 "terms"
      [("field", .str "x")] rfl rfl rfl rfl (fun h => by simp at h)⟩

/-- Counterexample to C8 as stated: the mapping with the single
non-reserved key `terms` whose value is the number 5 has a registered
kind, yet the build does not succeed — unpacking a non-mapping with
`**params` raises a TypeError (aggs.py 76), not a successful build. -/
theorem c8_counterexample :
    nonReserved [("terms", JSON.num 5)] = [("terms", JSON.num 5)] ∧
      (catOf "terms").isSome = true ∧
      buildNodeF 3 (.obj [("terms", JSON.num 5)]) = .error .typeErr ∧
      ∀ a, buildNodeF 3 (.obj [("terms", JSON.num 5)]) ≠ .ok a := by
  refine ⟨rfl, rfl, rfl, ?_⟩
  intro a h
  rw [show buildNodeF 3 (.obj [("terms", JSON.num 5)]) = .error .typeErr from rfl] at h
  exact Except.noConfusion h

lemma alookup_aset_self {α : Type} (xs : List (String × α)) (k : String) (v : α) :
    alookup (aset xs k v) k = some v := by
  induction xs with
  | nil => simp [aset, alookup]
  | cons p rest ih =>
    obtain ⟨k1, v1⟩ := p
    by_cases hk : k1 = k
    · simp [aset, hk, alookup]
    · simp [aset, hk, alookup, ih]

lemma hlen_setN (h : Heap) (a : Nat) (n : HNode) : hlen (setN h a n) = hlen h := by
  simp [hlen, setN]

lemma hlen_append_one (h : Heap) (n : HNode) :
    hlen (List.append h [n]) = hlen h + 1 := by
  simp [hlen]

lemma getN_setN_same {h : Heap} {a : Nat} (n : HNode) (ha : a < hlen h) :
    getN (setN h a n) a = n := by
  simp only [getN, setN, List.getD, List.get?_eq_getElem?]
  rw [List.getElem?_set_eq_of_lt _ (by simpa [hlen] using ha)]
  rfl

lemma getN_setN_other {h : Heap} {a b : Nat} (n : HNode) (hne : a ≠ b) :
    getN (setN h a n) b = getN h b := by
  simp only [getN, setN, List.getD, List.get?_eq_getElem?]
  rw [List.getElem?_set_ne hne]

lemma getN_append_lt {h : Heap} (xs : List HNode) {a : Nat} (ha : a < hlen h) :
    getN (List.append h xs) a = getN h a := by
  simp only [getN, List.getD, List.get?_eq_getElem?, List.append_eq]
  rw [List.getElem?_append_left (by simpa [hlen] using ha)]

lemma getN_append_self (h : Heap) (n : HNode) :
    getN (List.append h [n]) (hlen h) = n := by
  simp only [getN, List.getD, List.get?_eq_getElem?, List.append_eq, hlen]
  rw [List.getElem?_append_right (Nat.le_refl _)]
  simp

lemma hSetItem_len (h : Heap) (b : Nat) (name : String) (v : Nat) :
    hlen (hSetItem h b name v) = hlen h := by
  simp [hSetItem, hlen_setN]

lemma hSetItem_base (h : Heap) (b : Nat) (name : String) (v : Nat) {a : Nat}
    (ha : a < hlen h) : (getN (hSetItem h b name v) a).base = (getN h a).base := by
  simp only [hSetItem]
  by_cases hab : b = a
  · subst hab
    rw [getN_setN_same _ ha]
  · rw [getN_setN_other _ hab]

/-- Every container operation preserves the `_base` anchor of every
already-allocated node and never removes nodes: the anchor recorded at
construction never changes for the lifetime of the object. -/
lemma hStep_base_stable (h : Heap) (op : HOp) {a : Nat} (ha : a < hlen h) :
    (getN (hStep h op) a).base = (getN h a).base ∧ hlen h ≤ hlen (hStep h op) := by
  cases op with
  | get b name =>
    simp only [hStep, hGet, allocN]
    split
    · split
      · exact ⟨rfl, Nat.le_refl _⟩
      · split
        · constructor
          · by_cases hab : b = a
            · subst hab
              rw [getN_setN_same _ (by
                  rw [hlen_append_one]
                  exact Nat.lt_succ_of_lt ha)]
              rw [getN_append_lt _ ha]
            · rw [getN_setN_other _ hab, getN_append_lt _ ha]
          · rw [hlen_setN, hlen_append_one]
            exact Nat.le_succ _
        · exact ⟨rfl, Nat.le_refl _⟩
    · exact ⟨rfl, Nat.le_refl _⟩
    · constructor
      · by_cases hab : b = a
        · subst hab
          rw [getN_setN_same _ ha]
        · rw [getN_setN_other _ hab]
      · rw [hlen_setN]
  | set b name v =>
    simp only [hStep]
    constructor
    · exact hSetItem_base h b name v ha
    · rw [hSetItem_len]
  | addBucket b name kind ps =>
    simp only [hStep, hBucket, hAgg, hConstruct, allocN]
    constructor
    · rw [hSetItem_base _ _ _ _ (by
        rw [hlen_append_one]
        exact Nat.lt_succ_of_lt ha)]
      rw [getN_append_lt _ ha]
    · rw [hSetItem_len, hlen_append_one]
      exact Nat.le_succ _
  | addMetric b name kind ps =>
    simp only [hStep, hMetric, hAgg, hConstruct, allocN]
    constructor
    · rw [hSetItem_base _ _ _ _ (by
        rw [hlen_append_one]
        exact Nat.lt_succ_of_lt ha)]
      rw [getN_append_lt _ ha]
    · rw [hSetItem_len, hlen_append_one]
      exact Nat.le_succ _
  | addPipeline b name kind ps =>
    simp only [hStep, hPipeline, hAgg, hConstruct, allocN]
    constructor
    · rw [hSetItem_base _ _ _ _ (by
        rw [hlen_append_one]
        exact Nat.lt_succ_of_lt ha)]
      rw [getN_append_lt _ ha]
    · rw [hSetItem_len, hlen_append_one]
      exact Nat.le_succ _
  | mutate c key v =>
    simp only [hStep, hMutate]
    constructor
    · by_cases hab : c = a
      · subst hab
        rw [getN_setN_same _ ha]
      · rw [getN_setN_other _ hab]
    · rw [hlen_setN]

/-- Anchor stability over an arbitrary chain of container operations. -/
lemma runOps_base_stable (ops : List HOp) (h : Heap) {a : Nat} (ha : a < hlen h) :
    (getN (runOps h ops) a).base = (getN h a).base ∧
      hlen h ≤ hlen (runOps h ops) := by
  induction ops generalizing h with
  | nil => exact ⟨rfl, Nat.le_refl _⟩
  | cons op rest ih =>
    have h1 := hStep_base_stable h op ha
    have h2 := ih (hStep h op) (Nat.lt_of_lt_of_le ha h1.2)
    exact ⟨h2.1.trans h1.1, h1.2.trans h2.2⟩

lemma hMetric_snd (h : Heap) (b : Nat) (name kind : String)
    (ps : List (String × HVal)) (hb : b < hlen h) :
    (hMetric h b name kind ps).2 = (getN h b).base := by
  simp only [hMetric, hAgg, hConstruct, allocN, Bool.false_eq_true, if_false]
  rw [hSetItem_base _ _ _ _ (by
    rw [hlen_append_one]
    exact Nat.lt_succ_of_lt hb)]
  rw [getN_append_lt _ hb]

lemma hPipeline_snd (h : Heap) (b : Nat) (name kind : String)
    (ps : List (String × HVal)) (hb : b < hlen h) :
    (hPipeline h b name kind ps).2 = (getN h b).base := by
  simp only [hPipeline, hAgg, hConstruct, allocN, Bool.false_eq_true, if_false]
  rw [hSetItem_base _ _ _ _ (by
    rw [hlen_append_one]
    exact Nat.lt_succ_of_lt hb)]
  rw [getN_append_lt _ hb]

lemma hBucket_snd (h : Heap) (b : Nat) (name kind : String)
    (ps : List (String × HVal)) :
    (hBucket h b name kind ps).2 = hlen h := rfl

/-- Claim C4: after any chain of container operations, `metric` and
`pipeline` on a node return the `_base` anchor that was recorded when
that node was constructed (aggs.py 142-152, 167-171) — the same object
identity every time — while `bucket` returns the address of the freshly
allocated child node, distinct from every previously existing object,
and the fresh bucket records itself as its own anchor at construction. -/
theorem c4_chaining_returns (h : Heap) (ops : List HOp) (r : Nat)
    (hr : r < hlen h) (name kind : String) (ps : List (String × HVal)) :
    (hMetric (runOps h ops) r name kind ps).2 = (getN h r).base ∧
      (hPipeline (runOps h ops) r name kind ps).2 = (getN h r).base ∧
      (hBucket (runOps h ops) r name kind ps).2 = hlen (runOps h ops) ∧
      (∀ b : Nat, b < hlen (runOps h ops) →
        (hBucket (runOps h ops) r name kind ps).2 ≠ b) ∧
      (getN (hBucket (runOps h ops) r name kind ps).1
          (hBucket (runOps h ops) r name kind ps).2).base =
        (hBucket (runOps h ops) r name kind ps).2 := by
  obtain ⟨hbase, hle⟩ := runOps_base_stable ops h hr
  have hr1 : r < hlen (runOps h ops) := Nat.lt_of_lt_of_le hr hle
  refine ⟨?_, ?_, hBucket_snd _ _ _ _ _, ?_, ?_⟩
  · rw [hMetric_snd _ _ _ _ _ hr1, hbase]
  · rw [hPipeline_snd _ _ _ _ _ hr1, hbase]
  · intro b hb
    rw [hBucket_snd]
    exact Nat.ne_of_gt hb
  · rw [hBucket_snd]
    simp only [hBucket, hAgg, hConstruct, allocN, if_true]
    simp only [hSetItem]
    have hne : r ≠ hlen (runOps h ops) := Nat.ne_of_lt hr1
    rw [getN_setN_other _ hne, getN_append_self]

/-- Witness for C4: a single-node heap holding a terms bucket, one
chained addBucket operation, then metric, pipeline and bucket calls on
the original node. -/
theorem c4_witness :
    (hMetric (runOps [⟨"terms", [], 0⟩] [.addBucket 0 "x" "nested" []])
        0 "m" "max" []).2 = (getN [⟨"terms", [], 0⟩] 0).base ∧
      (hPipeline (runOps [⟨"terms", [], 0⟩] [.addBucket 0 "x" "nested" []])
          0 "p" "avg_bucket" []).2 = (getN [⟨"terms", [], 0⟩] 0).base ∧
      (hBucket (runOps [⟨"terms", [], 0⟩] [.addBucket 0 "x" "nested" []])
          0 "b" "nested" []).2 =
        hlen (runOps [⟨"terms", [], 0⟩] [.addBucket 0 "x" "nested" []]) ∧
      (∀ b : Nat,
        b < hlen (runOps [⟨"terms", [], 0⟩] [.addBucket 0 "x" "nested" []]) →
        (hBucket (runOps [⟨"terms", [], 0⟩] [.addBucket 0 "x" "nested" []])
            0 "b" "nested" []).2 ≠ b) ∧
      (getN (hBucket (runOps [⟨"terms", [], 0⟩] [.addBucket 0 "x" "nested" []])
            0 "b" "nested" []).1
          (hBucket (runOps [⟨"terms", [], 0⟩] [.addBucket 0 "x" "nested" []])
            0 "b" "nested" []).2).base =
        (hBucket (runOps [⟨"terms", [], 0⟩] [.addBucket 0 "x" "nested" []])
            0 "b" "nested" []).2 := by
  have h1 := c4_chaining_returns [⟨"terms", [], 0⟩] [.addBucket 0 "x" "nested" []]
    0 (by decide) "m" "max" []
  have h2 := c4_chaining_returns [⟨"terms", [], 0⟩] [.addBucket 0 "x" "nested" []]
    0 (by decide) "p" "avg_bucket" []
  have h3 := c4_chaining_returns [⟨"terms", [], 0⟩] [.addBucket 0 "x" "nested" []]
    0 (by decide) "b" "nested" []
  exact ⟨h1.1, h2.2.1, h3.2.2.1, h3.2.2.2.1, h3.2.2.2.2⟩

/-- Closed form of `__getitem__` when the resolved child is a
Bucket-category node: a copy of the child is allocated at the next
address (with itself as anchor), stored back under the name, and
returned. -/
lemma hGet_bucket (h : Heap) (b c : Nat) (k : String)
    (m : List (String × Nat)) (hb : b < hlen h)
    (hm : alookup (getN h b).params "aggs" = some (.kids m))
    (hc : alookup m k = some c)
    (hbk : isBucketKind (getN h c).kind = true) :
    hGet h b k =
      (setN (List.append h [⟨(getN h c).kind, (getN h c).params, hlen h⟩]) b
        ⟨(getN h b).kind,
          aset (getN h b).params "aggs" (.kids (aset m k (hlen h))),
          (getN h b).base⟩,
        some (hlen h)) := by
  simp only [hGet, hm, hc, allocN]
  rw [if_pos hbk]
  rw [getN_append_lt _ hb]

/-- Claim C1: on a container `b` whose child under `k` is a
Bucket-category node, two successive `get` calls return two distinct
fresh objects (each call re-runs the child through the factory and
stores the copy, aggs.py 122-134), so mutating a parameter of the first
returned copy leaves the node returned by the second call exactly as it
was before the mutation. -/
theorem c1_anti_aliasing (h : Heap) (b c : Nat) (k : String)
    (m : List (String × Nat)) (hb : b < hlen h)
    (hm : alookup (getN h b).params "aggs" = some (.kids m))
    (hc : alookup m k = some c)
    (hbk : isBucketKind (getN h c).kind = true) :
    ∃ h1 r1 h2 r2,
      hGet h b k = (h1, some r1) ∧
      hGet h1 b k = (h2, some r2) ∧
      r1 ≠ r2 ∧
      ∀ (key : String) (v : HVal),
        getN (hMutate h2 r1 key v) r2 = getN h2 r2 := by
  have hg1 := hGet_bucket h b c k m hb hm hc hbk
  have hbA : b < hlen (List.append h [(⟨(getN h c).kind, (getN h c).params, hlen h⟩ : HNode)]) := by
    rw [hlen_append_one]
    exact Nat.lt_succ_of_lt hb
  have hbne : b ≠ hlen h := Nat.ne_of_lt hb
  set h1 : Heap :=
    setN (List.append h [⟨(getN h c).kind, (getN h c).params, hlen h⟩]) b
      ⟨(getN h b).kind,
        aset (getN h b).params "aggs" (.kids (aset m k (hlen h))),
        (getN h b).base⟩ with hh1
  have hlen1 : hlen h1 = hlen h + 1 := by
    rw [hh1, hlen_setN, hlen_append_one]
  have hb1 : b < hlen h1 := by
    rw [hlen1]
    exact Nat.lt_succ_of_lt hb
  have hgb1 : getN h1 b =
      ⟨(getN h b).kind,
        aset (getN h b).params "aggs" (.kids (aset m k (hlen h))),
        (getN h b).base⟩ := by
    rw [hh1]
    exact getN_setN_same _ hbA
  have hm1 : alookup (getN h1 b).params "aggs" =
      some (.kids (aset m k (hlen h))) := by
    rw [hgb1]
    exact alookup_aset_self _ _ _
  have hc1 : alookup (aset m k (hlen h)) k = some (hlen h) :=
    alookup_aset_self _ _ _
  have ha1 : getN h1 (hlen h) = ⟨(getN h c).kind, (getN h c).params, hlen h⟩ := by
    rw [hh1, getN_setN_other _ hbne, getN_append_self]
  have hbk1 : isBucketKind (getN h1 (hlen h)).kind = true := by
    rw [ha1]
    exact hbk
  have hg2 := hGet_bucket h1 b (hlen h) k (aset m k (hlen h)) hb1 hm1 hc1 hbk1
  refine ⟨h1, hlen h, _, hlen h1, hg1, hg2, ?_, ?_⟩
  · rw [hlen1]
    exact Nat.ne_of_lt (Nat.lt_succ_self _)
  · intro key v
    simp only [hMutate]
    refine getN_setN_other _ ?_
    rw [hlen1]
    exact Nat.ne_of_lt (Nat.lt_succ_self _)

/-- Witness for C1: a two-node heap where node 0 (a terms bucket) holds
node 1 (a nested bucket) as child `x`. -/
theorem c1_witness :
    ∃ h1 r1 h2 r2,
      hGet [(⟨"terms", [("aggs", .kids [("x", 1)])], 0⟩ : HNode),
          ⟨"nested", [], 1⟩] 0 "x" = (h1, some r1) ∧
      hGet h1 0 "x" = (h2, some r2) ∧
      r1 ≠ r2 ∧
      ∀ (key : String) (v : HVal),
        getN (hMutate h2 r1 key v) r2 = getN h2 r2 :=
  c1_anti_aliasing
    [⟨"terms", [("aggs", .kids [("x", 1)])], 0⟩, ⟨"nested", [], 1⟩]
    0 1 "x" [("x", 1)] (by decide) rfl rfl rfl

/-- Value of one live parameter, used to state conversions of parameter
dicts that contain no child references. -/
def hvalToPVal : HVal → PVal
  | .js j => .json j
  | .qry q => .query q
  | .kids _ => .aggsMap []

lemma mem_aset_vals {α : Type} {xs : List (String × α)} {k : String} {v : α}
    {p : String × α} (h : p ∈ aset xs k v) : p ∈ xs ∨ p.2 = v := by
  induction xs with
  | nil =>
    simp [aset] at h
    simp [h]
  | cons q rest ih =>
    obtain ⟨k1, v1⟩ := q
    by_cases hk : k1 = k
    · simp only [aset, if_pos hk] at h
      rcases List.mem_cons.mp h with heq | hmem
      · right
        rw [heq]
      · exact Or.inl (List.mem_cons_of_mem _ hmem)
    · simp only [aset, if_neg hk] at h
      rcases List.mem_cons.mp h with heq | hmem
      · exact Or.inl (heq ▸ List.mem_cons_self _ _)
      · rcases ih hmem with hin | hv
        · exact Or.inl (List.mem_cons_of_mem _ hin)
        · exact Or.inr hv

/-- Converting a parameter dict with no child references succeeds with
any resolver and yields the pointwise translation. -/
lemma hToValParams_js {conv : Nat → Option Agg} {ps : List (String × HVal)}
    (h : ∀ p ∈ ps, ∃ j, p.2 = HVal.js j) :
    hToValParams conv ps = some (mapVals hvalToPVal ps) := by
  induction ps with
  | nil => rfl
  | cons p rest ih =>
    obtain ⟨k, v⟩ := p
    obtain ⟨j, hj⟩ := h (k, v) (by simp)
    have : v = HVal.js j := hj
    subst this
    rw [show hToValParams conv ((k, HVal.js j) :: rest) =
      (hToValParams conv rest).map (fun ps => (k, .json j) :: ps) from rfl]
    rw [ih (fun q hq => h q (List.mem_cons_of_mem _ hq))]
    rfl

/-- Claim C10: when `get` resolves a Bucket-category child, the fresh
copy is stored back into the container before being returned, so the
stored child under `k` is the very object the caller received; any later
mutation through that handle is visible in the container tree (the
stored child still is the returned object, and now carries the new
parameter) and in the container serialization, which equals the
serialization of a tree holding the mutated child — no explicit
write-back is needed (aggs.py 127-133). -/
theorem c10_copy_stored_back (h : Heap) (b c : Nat) (k : String)
    (hb : b < hlen h)
    (hbp : (getN h b).params = [("aggs", .kids [(k, c)])])
    (hbk : isBucketKind (getN h c).kind = true)
    (hcp : ∀ p ∈ (getN h c).params, ∃ j, p.2 = HVal.js j) :
    ∃ h1 r1,
      hGet h b k = (h1, some r1) ∧
      storedChild h1 b k = some r1 ∧
      ∀ (key : String) (jv : JSON),
        storedChild (hMutate h1 r1 key (.js jv)) b k = some r1 ∧
        alookup (getN (hMutate h1 r1 key (.js jv)) r1).params key =
          some (.js jv) ∧
        ∃ cv : Agg,
          (∀ f : Nat, hToValF (f + 1) (hMutate h1 r1 key (.js jv)) r1 = some cv) ∧
          alookup cv.paramsOf key = some (.json jv) ∧
          ∀ f : Nat,
            hToDictF (f + 2) (hMutate h1 r1 key (.js jv)) b =
              some (toDict (.mk (getN h b).kind [("aggs", .aggsMap [(k, cv)])])) := by
  have hm : alookup (getN h b).params "aggs" = some (.kids [(k, c)]) := by
    rw [hbp]
    rfl
  have hc : alookup [(k, c)] k = some c := by
    simp [alookup]
  have hg1 := hGet_bucket h b c k [(k, c)] hb hm hc hbk
  have hbne : b ≠ hlen h := Nat.ne_of_lt hb
  set copy : HNode := ⟨(getN h c).kind, (getN h c).params, hlen h⟩ with hcopy
  set h1 : Heap :=
    setN (List.append h [copy]) b
      ⟨(getN h b).kind,
        aset (getN h b).params "aggs" (.kids (aset [(k, c)] k (hlen h))),
        (getN h b).base⟩ with hh1
  have hbA : b < hlen (List.append h [copy]) := by
    rw [hlen_append_one]
    exact Nat.lt_succ_of_lt hb
  have hlen1 : hlen h1 = hlen h + 1 := by
    rw [hh1, hlen_setN, hlen_append_one]
  have hr1lt : hlen h < hlen h1 := by
    rw [hlen1]
    exact Nat.lt_succ_self _
  have haset1 : aset [(k, c)] k (hlen h) = [(k, hlen h)] := by
    simp [aset]
  have hgb1 : getN h1 b =
      ⟨(getN h b).kind,
        aset (getN h b).params "aggs" (.kids (aset [(k, c)] k (hlen h))),
        (getN h b).base⟩ := by
    rw [hh1]
    exact getN_setN_same _ hbA
  have ha1 : getN h1 (hlen h) = copy := by
    rw [hh1, getN_setN_other _ hbne, getN_append_self]
  have hstored : storedChild h1 b k = some (hlen h) := by
    simp only [storedChild, kidsOf, hgb1, alookup_aset_self, haset1]
    simp [alookup]
  refine ⟨h1, hlen h, hg1, hstored, ?_⟩
  intro key jv
  set h2 : Heap := hMutate h1 (hlen h) key (.js jv) with hh2
  have hgb2 : getN h2 b = getN h1 b := by
    rw [hh2]
    simp only [hMutate]
    exact getN_setN_other _ (Ne.symm hbne)
  have hgr2 : getN h2 (hlen h) =
      ⟨copy.kind, aset copy.params key (.js jv), copy.base⟩ := by
    rw [hh2]
    simp only [hMutate, ha1]
    exact getN_setN_same _ hr1lt
  have hcp2 : ∀ p ∈ aset copy.params key (.js jv), ∃ j, p.2 = HVal.js j := by
    intro p hp
    rcases mem_aset_vals hp with hin | hv
    · exact hcp p hin
    · exact ⟨jv, hv⟩
  refine ⟨?_, ?_, ?_⟩
  · simp only [storedChild, kidsOf, hgb2, hgb1, alookup_aset_self, haset1]
    simp [alookup]
  · rw [hgr2]
    exact alookup_aset_self _ _ _
  · refine ⟨.mk copy.kind (mapVals hvalToPVal (aset copy.params key (.js jv))), ?_, ?_, ?_⟩
    · intro f
      rw [show hToValF (f + 1) h2 (hlen h) =
        (hToValParams (hToValF f h2) (getN h2 (hlen h)).params).map
          (.mk (getN h2 (hlen h)).kind) from rfl]
      rw [hgr2]
      rw [hToValParams_js hcp2]
      rfl
    · simp only [Agg.paramsOf]
      rw [alookup_mapVals]
      rw [alookup_aset_self]
      rfl
    · intro f
      rw [show hToDictF (f + 2) h2 b = (hToValF (f + 2) h2 b).map toDict from rfl]
      rw [show hToValF (f + 2) h2 b =
        (hToValParams (hToValF (f + 1) h2) (getN h2 b).params).map
          (.mk (getN h2 b).kind) from rfl]
      rw [hgb2, hgb1]
      simp only [haset1]
      have hkid : hToValF (f + 1) h2 (hlen h) =
          some (.mk copy.kind (mapVals hvalToPVal (aset copy.params key (.js jv)))) := by
        rw [show hToValF (f + 1) h2 (hlen h) =
          (hToValParams (hToValF f h2) (getN h2 (hlen h)).params).map
            (.mk (getN h2 (hlen h)).kind) from rfl]
        rw [hgr2]
        rw [hToValParams_js hcp2]
        rfl
      have hbparams : aset (getN h b).params "aggs" (.kids [(k, hlen h)]) =
          [("aggs", .kids [(k, hlen h)])] := by
        rw [hbp]
        simp [aset]
      rw [hbparams]
      rw [show hToValParams (hToValF (f + 1) h2) [("aggs", .kids [(k, hlen h)])] =
        match hToValKids (hToValF (f + 1) h2) [(k, hlen h)],
            hToValParams (hToValF (f + 1) h2) [] with
          | some cs, some ps => some (("aggs", .aggsMap cs) :: ps)
          | _, _ => none from rfl]
      rw [show hToValKids (hToValF (f + 1) h2) [(k, hlen h)] =
        match hToValF (f + 1) h2 (hlen h), hToValKids (hToValF (f + 1) h2) [] with
          | some c, some cs => some ((k, c) :: cs)
          | _, _ => none from rfl]
      rw [hkid]
      rfl

/-- Witness for C10: node 0 (terms) holds node 1 (nested, one raw
parameter) as child `x`. -/
theorem c10_witness :
    ∃ h1 r1,
      hGet [(⟨"terms", [("aggs", .kids [("x", 1)])], 0⟩ : HNode),
          ⟨"nested", [("path", .js (.str "p"))], 1⟩] 0 "x" = (h1, some r1) ∧
      storedChild h1 0 "x" = some r1 ∧
      ∀ (key : String) (jv : JSON),
        storedChild (hMutate h1 r1 key (.js jv)) 0 "x" = some r1 ∧
        alookup (getN (hMutate h1 r1 key (.js jv)) r1).params key =
          some (.js jv) ∧
        ∃ cv : Agg,
          (∀ f : Nat, hToValF (f + 1) (hMutate h1 r1 key (.js jv)) r1 = some cv) ∧
          alookup cv.paramsOf key = some (.json jv) ∧
          ∀ f : Nat,
            hToDictF (f + 2) (hMutate h1 r1 key (.js jv)) 0 =
              some (toDict (.mk (getN [(⟨"terms", [("aggs", .kids [("x", 1)])], 0⟩ : HNode),
                  ⟨"nested", [("path", .js (.str "p"))], 1⟩] 0).kind
                [("aggs", .aggsMap [("x", cv)])])) :=
  c10_copy_stored_back
    [⟨"terms", [("aggs", .kids [("x", 1)])], 0⟩,
      ⟨"nested", [("path", .js (.str "p"))], 1⟩]
    0 1 "x" (by decide) rfl rfl
    (by
      intro p hp
      rcases List.mem_singleton.mp hp with rfl
      exact ⟨.str "p", rfl⟩)

/-- The `meta` sibling produced by `Agg.to_dict` when the parameters
contain a meta entry. -/
def metaSib (ps : List (String × PVal)) : List (String × JSON) :=
  match alookup ps "meta" with
  | some v => [("meta", serializePV v)]
  | none => []

/-- The `aggs` sibling produced by `Bucket.to_dict` when the parameters
contain an aggs entry. -/
def aggsSib (ps : List (String × PVal)) : List (String × JSON) :=
  match alookup ps "aggs" with
  | some v => [("aggs", serializePV v)]
  | none => []

lemma serializeParams_eq_mapVals (ps : List (String × PVal)) :
    serializeParams ps = mapVals serializePV ps := by
  induction ps with
  | nil => rfl
  | cons p rest ih =>
    obtain ⟨k, v⟩ := p
    rw [show serializeParams ((k, v) :: rest) =
      (k, serializePV v) :: serializeParams rest from rfl, ih]
    rfl

lemma alookup_serializeParams (ps : List (String × PVal)) (k : String) :
    alookup (serializeParams ps) k = (alookup ps k).map serializePV := by
  rw [serializeParams_eq_mapVals, alookup_mapVals]

lemma akeys_serializeParams (ps : List (String × PVal)) :
    akeys (serializeParams ps) = akeys ps := by
  rw [serializeParams_eq_mapVals, akeys_mapVals]

lemma alookup_aset_ne {α : Type} (xs : List (String × α)) {k key : String}
    (v : α) (h : key ≠ k) : alookup (aset xs k v) key = alookup xs key := by
  induction xs with
  | nil => simp [aset, alookup, show ¬ k = key from fun hh => h hh.symm]
  | cons p rest ih =>
    obtain ⟨k1, v1⟩ := p
    by_cases hk : k1 = k
    · have hk1key : ¬ k1 = key := fun hh => h (hh.symm.trans hk)
      simp [aset, hk, alookup, show ¬ k = key from fun hh => h hh.symm, hk1key]
    · by_cases hkey : k1 = key
      · simp [aset, alookup, hkey, show ¬ key = k from h]
      · simp [aset, hk, alookup, hkey, ih]

lemma alookup_aupdate_not_mem {α : Type} {upd : List (String × α)}
    (xs : List (String × α)) {key : String} (h : ¬ key ∈ akeys upd) :
    alookup (aupdate xs upd) key = alookup xs key := by
  induction upd generalizing xs with
  | nil => rfl
  | cons p u ih =>
    obtain ⟨k, v⟩ := p
    simp only [akeys, List.map_cons, List.mem_cons] at h
    push_neg at h
    rw [show aupdate xs ((k, v) :: u) = aupdate (aset xs k v) u from rfl]
    rw [ih _ (by simpa [akeys] using h.2)]
    exact alookup_aset_ne _ _ h.1

lemma alookup_aupdate_mem {α : Type} {upd : List (String × α)}
    (xs : List (String × α)) {k : String} {v : α}
    (hnd : (akeys upd).Nodup) (h : (k, v) ∈ upd) :
    alookup (aupdate xs upd) k = some v := by
  induction upd generalizing xs with
  | nil => simp at h
  | cons p u ih =>
    obtain ⟨k1, v1⟩ := p
    simp only [akeys, List.map_cons, List.nodup_cons] at hnd
    rw [show aupdate xs ((k1, v1) :: u) = aupdate (aset xs k1 v1) u from rfl]
    rcases List.mem_cons.mp h with heq | hmem
    · injection heq with h1 h2
      subst h1
      subst h2
      rw [alookup_aupdate_not_mem _ hnd.1]
      exact alookup_aset_self _ _ _
    · exact ih _ hnd.2 hmem

lemma wfParams_mem {kind : String} {ps : List (String × PVal)}
    (h : wfParams kind ps = true) {p : String × PVal} (hp : p ∈ ps) :
    wfParam kind p.1 p.2 = true := by
  induction ps with
  | nil => simp at hp
  | cons q rest ih =>
    obtain ⟨k, v⟩ := q
    rw [show wfParams kind ((k, v) :: rest) =
      (wfParam kind k v && wfParams kind rest) from rfl] at h
    simp only [Bool.and_eq_true] at h
    rcases List.mem_cons.mp hp with heq | hmem
    · subst heq
      exact h.1
    · exact ih h.2 hmem

lemma wfAgg_parts {kind : String} {ps : List (String × PVal)}
    (h : wfAgg (.mk kind ps) = true) :
    (catOf kind).isSome = true ∧ (akeys ps).Nodup ∧ wfParams kind ps = true := by
  rw [show wfAgg (.mk kind ps) =
    ((catOf kind).isSome && (akeys ps).Nodup && wfParams kind ps) from rfl] at h
  simp only [Bool.and_eq_true, decide_eq_true_eq] at h
  exact ⟨h.1.1, h.1.2, h.2⟩

/-- Shape of `to_dict` for metric and pipeline kinds: one kind-tag key
whose object is the serialized parameters with `meta` removed, plus the
`meta` sibling when present. -/
lemma toDict_nonbucket {kind : String} {cat : Cat} (ps : List (String × PVal))
    (hcat : catOf kind = some cat) (hcb : cat ≠ Cat.bucket) :
    toDict (.mk kind ps) =
      .obj ([(kind, .obj (aerase (serializeParams ps) "meta"))] ++ metaSib ps) := by
  have hkm := (registered_not_reserved hcat).2
  have hstep : toDict (.mk kind ps) =
      hoistKey "meta" (baseDict kind (serializeParams ps)) := by
    rw [show toDict (.mk kind ps) = dispatchDict kind (serializeParams ps) from rfl]
    simp only [dispatchDict, hcat]
    cases cat
    · exact absurd rfl hcb
    · rfl
    · rfl
  rw [hstep]
  rcases hm : alookup (serializeParams ps) "meta" with _ | mv
  · simp only [hoistKey, baseDict, hm]
    rw [aerase_not_mem (alookup_eq_none.mp hm)]
    rw [metaSib, show alookup ps "meta" = none from Option.map_eq_none'.mp
      (by rw [← alookup_serializeParams]; exact hm)]
    simp
  · simp only [hoistKey, baseDict, hm]
    rw [aset_not_mem _ (by
      intro hmem
      simp [akeys] at hmem
      exact hkm hmem.symm)]
    obtain ⟨v, hv, hsv⟩ := Option.map_eq_some'.mp
      (show (alookup ps "meta").map serializePV = some mv from by
        rw [← alookup_serializeParams]; exact hm)
    rw [metaSib, hv]
    simp [hsv]

/-- Closed form of the hoisting step shared by `Agg.to_dict` and
`Bucket.to_dict`: pop `key` from the inner object (when present) and
append it as a top-level sibling. -/
lemma hoistKey_shape (key kind : String) (inner rest : List (String × JSON))
    (hk : kind ≠ key) (hrest : ¬ key ∈ akeys rest) :
    hoistKey key (.obj ((kind, .obj inner) :: rest)) =
      .obj ((kind, .obj (aerase inner key)) :: rest ++
        (match alookup inner key with
          | some v => [(key, v)]
          | none => [])) := by
  rcases hm : alookup inner key with _ | v
  · simp only [hoistKey, hm]
    rw [aerase_not_mem (alookup_eq_none.mp hm), List.append_nil]
  · simp only [hoistKey, hm]
    rw [aset_not_mem _ (by
      intro hmem
      simp only [akeys, List.map_cons, List.mem_cons] at hmem
      rcases hmem with heq | hin
      · exact hk heq.symm
      · exact hrest (by simpa [akeys] using hin))]

lemma metaSib_no_aggs (ps : List (String × PVal)) :
    ¬ "aggs" ∈ akeys (metaSib ps) := by
  rw [metaSib]
  rcases alookup ps "meta" with _ | v
  · simp [akeys]
  · simp [akeys]

/-- Shape of `to_dict` for bucket kinds other than `filter`: one
kind-tag key whose object is the serialized parameters with `meta` and
`aggs` removed, plus the `meta` and `aggs` siblings when present. -/
lemma toDict_bucket {kind : String} (ps : List (String × PVal))
    (hcat : catOf kind = some Cat.bucket) (hnf : kind ≠ "filter") :
    toDict (.mk kind ps) =
      .obj ([(kind, .obj (aerase (aerase (serializeParams ps) "meta") "aggs"))] ++
        metaSib ps ++ aggsSib ps) := by
  have hkm := (registered_not_reserved hcat).2
  have hka := (registered_not_reserved hcat).1
  have hstep : toDict (.mk kind ps) =
      hoistKey "aggs" (hoistKey "meta" (baseDict kind (serializeParams ps))) := by
    rw [show toDict (.mk kind ps) = dispatchDict kind (serializeParams ps) from rfl]
    simp only [dispatchDict, hcat]
    rw [if_neg hnf]
  rw [hstep]
  rw [show baseDict kind (serializeParams ps) =
    .obj ((kind, .obj (serializeParams ps)) :: []) from rfl]
  rw [hoistKey_shape "meta" kind (serializeParams ps) [] hkm (by simp [akeys])]
  rw [List.singleton_append]
  rw [hoistKey_shape "aggs" kind (aerase (serializeParams ps) "meta")
    (match alookup (serializeParams ps) "meta" with
      | some v => [("meta", v)]
      | none => [])
    hka
    (by
      rcases hm : alookup (serializeParams ps) "meta" with _ | v
      · simp [akeys]
      · simp [akeys])]
  rw [alookup_aerase_of_ne _ (by decide)]
  have hms : (match alookup (serializeParams ps) "meta" with
      | some v => [(("meta" : String), v)]
      | none => ([] : List (String × JSON))) = metaSib ps := by
    rw [metaSib, alookup_serializeParams]
    rcases alookup ps "meta" with _ | v
    · rfl
    · rfl
  have has : (match alookup (serializeParams ps) "aggs" with
      | some v => [(("aggs" : String), v)]
      | none => ([] : List (String × JSON))) = aggsSib ps := by
    rw [aggsSib, alookup_serializeParams]
    rcases alookup ps "aggs" with _ | v
    · rfl
    · rfl
  rw [hms, has]
  simp

/-- Shape of `to_dict` for a `filter` node whose filter slot holds a
query: after the meta and aggs hoists, the query fields are merged into
the inner object in place of the `filter` entry. -/
lemma toDict_filter_query (ps : List (String × PVal)) (q : List (String × JSON))
    (hq : alookup ps "filter" = some (.query q)) :
    toDict (.mk "filter" ps) =
      .obj ((("filter" : String),
        .obj (aupdate
          (aerase (aerase (aerase (serializeParams ps) "meta") "aggs") "filter") q)) ::
        (metaSib ps ++ aggsSib ps)) := by
  have hstep : toDict (.mk "filter" ps) =
      mergeFilter (hoistKey "aggs" (hoistKey "meta" (baseDict "filter" (serializeParams ps)))) := by
    rw [show toDict (.mk "filter" ps) = dispatchDict "filter" (serializeParams ps) from rfl]
    simp only [dispatchDict]
    rfl
  rw [hstep]
  rw [show baseDict "filter" (serializeParams ps) =
    .obj (("filter", .obj (serializeParams ps)) :: []) from rfl]
  rw [hoistKey_shape "meta" "filter" (serializeParams ps) [] (by decide) (by simp [akeys])]
  rw [List.singleton_append]
  rw [hoistKey_shape "aggs" "filter" (aerase (serializeParams ps) "meta")
    (match alookup (serializeParams ps) "meta" with
      | some v => [("meta", v)]
      | none => [])
    (by decide)
    (by
      rcases hm : alookup (serializeParams ps) "meta" with _ | v
      · simp [akeys]
      · simp [akeys])]
  rw [List.cons_append]
  have hfl : alookup (aerase (aerase (serializeParams ps) "meta") "aggs") "filter" =
      some (.obj q) := by
    rw [alookup_aerase_of_ne _ (by decide), alookup_aerase_of_ne _ (by decide)]
    rw [alookup_serializeParams, hq]
    rfl
  simp only [mergeFilter, hfl]
  have hms : (match alookup (serializeParams ps) "meta" with
      | some v => [(("meta" : String), v)]
      | none => ([] : List (String × JSON))) = metaSib ps := by
    rw [metaSib, alookup_serializeParams]
    rcases alookup ps "meta" with _ | v
    · rfl
    · rfl
  have has : (match alookup (aerase (serializeParams ps) "meta") "aggs" with
      | some v => [(("aggs" : String), v)]
      | none => ([] : List (String × JSON))) = aggsSib ps := by
    rw [alookup_aerase_of_ne _ (by decide), aggsSib, alookup_serializeParams]
    rcases alookup ps "aggs" with _ | v
    · rfl
    · rfl
  rw [hms, has]

/-- Shape of `to_dict` for a `filter` node with no filter slot: the
merge step is a no-op. -/
lemma toDict_filter_none (ps : List (String × PVal))
    (hq : alookup ps "filter" = none) :
    toDict (.mk "filter" ps) =
      .obj ((("filter" : String),
        .obj (aerase (aerase (serializeParams ps) "meta") "aggs")) ::
        (metaSib ps ++ aggsSib ps)) := by
  have hstep : toDict (.mk "filter" ps) =
      mergeFilter (hoistKey "aggs" (hoistKey "meta" (baseDict "filter" (serializeParams ps)))) := by
    rw [show toDict (.mk "filter" ps) = dispatchDict "filter" (serializeParams ps) from rfl]
    simp only [dispatchDict]
    rfl
  rw [hstep]
  rw [show baseDict "filter" (serializeParams ps) =
    .obj (("filter", .obj (serializeParams ps)) :: []) from rfl]
  rw [hoistKey_shape "meta" "filter" (serializeParams ps) [] (by decide) (by simp [akeys])]
  rw [List.singleton_append]
  rw [hoistKey_shape "aggs" "filter" (aerase (serializeParams ps) "meta")
    (match alookup (serializeParams ps) "meta" with
      | some v => [("meta", v)]
      | none => [])
    (by decide)
    (by
      rcases hm : alookup (serializeParams ps) "meta" with _ | v
      · simp [akeys]
      · simp [akeys])]
  rw [List.cons_append]
  have hfl : alookup (aerase (aerase (serializeParams ps) "meta") "aggs") "filter" =
      none := by
    rw [alookup_aerase_of_ne _ (by decide), alookup_aerase_of_ne _ (by decide)]
    rw [alookup_serializeParams, hq]
    rfl
  simp only [mergeFilter, hfl]
  have hms : (match alookup (serializeParams ps) "meta" with
      | some v => [(("meta" : String), v)]
      | none => ([] : List (String × JSON))) = metaSib ps := by
    rw [metaSib, alookup_serializeParams]
    rcases alookup ps "meta" with _ | v
    · rfl
    · rfl
  have has : (match alookup (aerase (serializeParams ps) "meta") "aggs" with
      | some v => [(("aggs" : String), v)]
      | none => ([] : List (String × JSON))) = aggsSib ps := by
    rw [alookup_aerase_of_ne _ (by decide), aggsSib, alookup_serializeParams]
    rcases alookup ps "aggs" with _ | v
    · rfl
    · rfl
  rw [hms, has]

lemma contains_false_not_mem {l : List String} {a : String}
    (h : l.contains a = false) : ¬ a ∈ l := by
  intro hmem
  simp at h
  exact h hmem

/-- Pieces of the well-formedness of a query value in the filter slot:
unique keys, none of them a reserved aggregation key. -/
lemma wfParam_query_parts {kind k : String} {q : List (String × JSON)}
    (h : wfParam kind k (.query q) = true) :
    (akeys q).Nodup ∧ ¬ "filter" ∈ akeys q ∧ ¬ "aggs" ∈ akeys q ∧
      ¬ "meta" ∈ akeys q := by
  rw [show wfParam kind k (.query q) =
    (kind == "filter" && k == "filter" && (akeys q).Nodup &&
      !(akeys q).contains "filter" && !(akeys q).contains "aggs" &&
      !(akeys q).contains "meta") from rfl] at h
  simp only [Bool.and_eq_true, decide_eq_true_eq, Bool.not_eq_true'] at h
  exact ⟨h.1.1.1.2, contains_false_not_mem h.1.1.2,
    contains_false_not_mem h.1.2, contains_false_not_mem h.2⟩

/-- Claim C5: serializing a `filter` node merges the fields of the
filter sub-query directly into the kind-tag object — the result carries
no `filter` key inside that object and contains every query field —
while `meta` and `aggs` are hoisted to top-level siblings exactly as for
other kinds (aggs.py 194-199). -/
theorem c5_filter_merge (ps : List (String × PVal)) (q : List (String × JSON))
    (hwf : wfAgg (.mk "filter" ps) = true)
    (hq : alookup ps "filter" = some (.query q)) :
    ∃ inner : List (String × JSON),
      toDict (.mk "filter" ps) =
        .obj ([("filter", .obj inner)] ++ metaSib ps ++ aggsSib ps) ∧
      alookup inner "filter" = none ∧
      (∀ p ∈ q, alookup inner p.1 = some p.2) ∧
      alookup inner "meta" = none ∧
      alookup inner "aggs" = none := by
  obtain ⟨hsome, hnd, hps⟩ := wfAgg_parts hwf
  have hndS : (akeys (serializeParams ps)).Nodup := by
    rw [akeys_serializeParams]
    exact hnd
  obtain ⟨hndq, hfq, haq, hmq⟩ := wfParam_query_parts (wfParams_mem hps (alookup_mem hq))
  refine ⟨aupdate (aerase (aerase (aerase (serializeParams ps) "meta") "aggs")
    "filter") q, ?_, ?_, ?_, ?_, ?_⟩
  · rw [toDict_filter_query ps q hq]
    simp
  · rw [alookup_aupdate_not_mem _ hfq]
    exact alookup_aerase_self (akeys_aerase_nodup _ (akeys_aerase_nodup _ hndS))
  · intro p hp
    obtain ⟨pk, pv⟩ := p
    exact alookup_aupdate_mem _ hndq hp
  · rw [alookup_aupdate_not_mem _ hmq]
    rw [alookup_aerase_of_ne _ (by decide), alookup_aerase_of_ne _ (by decide)]
    exact alookup_aerase_self hndS
  · rw [alookup_aupdate_not_mem _ haq]
    rw [alookup_aerase_of_ne _ (by decide)]
    exact alookup_aerase_self (akeys_aerase_nodup _ hndS)

/-- Witness for C5: a filter node holding a term query, a child and a
meta entry. -/
theorem c5_witness :
    ∃ inner : List (String × JSON),
      toDict (.mk "filter"
          [("filter", .query [("term", .obj [("f", .str "v")])]),
           ("meta", .json (.obj [("x", .num 1)])),
           ("aggs", .aggsMap [("m", .mk "max" [])])]) =
        .obj ([("filter", .obj inner)] ++
          metaSib [("filter", .query [("term", .obj [("f", .str "v")])]),
            ("meta", .json (.obj [("x", .num 1)])),
            ("aggs", .aggsMap [("m", .mk "max" [])])] ++
          aggsSib [("filter", .query [("term", .obj [("f", .str "v")])]),
            ("meta", .json (.obj [("x", .num 1)])),
            ("aggs", .aggsMap [("m", .mk "max" [])])]) ∧
      alookup inner "filter" = none ∧
      (∀ p ∈ [(("term" : String), JSON.obj [("f", .str "v")])],
        alookup inner p.1 = some p.2) ∧
      alookup inner "meta" = none ∧
      alookup inner "aggs" = none :=
  c5_filter_merge
    [("filter", .query [("term", .obj [("f", .str "v")])]),
     ("meta", .json (.obj [("x", .num 1)])),
     ("aggs", .aggsMap [("m", .mk "max" [])])]
    [("term", .obj [("f", .str "v")])]
    (by decide) rfl

/-- Claim C6 (amended): serialization yields exactly one kind-tag key
plus a `meta` sibling whenever the parameters contain a meta entry
(removed from the inner object) and, on bucket kinds, an `aggs` sibling
whenever the parameters contain an aggs entry — including a present but
empty children map — never nested inside the kind-tag object. -/
theorem c6_sibling_hoisting (kind : String) (ps : List (String × PVal))
    (hwf : wfAgg (.mk kind ps) = true) :
    ∃ inner : List (String × JSON),
      toDict (.mk kind ps) =
        .obj ([(kind, .obj inner)] ++ metaSib ps ++
          (match catOf kind with
            | some Cat.bucket => aggsSib ps
            | _ => [])) ∧
      alookup inner "meta" = none ∧
      (catOf kind = some Cat.bucket → alookup inner "aggs" = none) := by
  obtain ⟨hsome, hnd, hps⟩ := wfAgg_parts hwf
  have hndS : (akeys (serializeParams ps)).Nodup := by
    rw [akeys_serializeParams]
    exact hnd
  rcases hcat : catOf kind with _ | cat
  · rw [hcat] at hsome
    simp at hsome
  · cases cat with
    | metric =>
      refine ⟨aerase (serializeParams ps) "meta", ?_, ?_, ?_⟩
      · rw [toDict_nonbucket ps hcat (by decide)]
        simp
      · exact alookup_aerase_self hndS
      · intro hb
        exact absurd (Option.some.inj hb) (by decide)
    | pipeline =>
      refine ⟨aerase (serializeParams ps) "meta", ?_, ?_, ?_⟩
      · rw [toDict_nonbucket ps hcat (by decide)]
        simp
      · exact alookup_aerase_self hndS
      · intro hb
        exact absurd (Option.some.inj hb) (by decide)
    | bucket =>
      by_cases hnf : kind = "filter"
      · subst hnf
        rcases hq : alookup ps "filter" with _ | v
        · refine ⟨aerase (aerase (serializeParams ps) "meta") "aggs", ?_, ?_, ?_⟩
          · rw [toDict_filter_none ps hq]
            simp
          · rw [alookup_aerase_of_ne _ (by decide)]
            exact alookup_aerase_self hndS
          · intro _
            exact alookup_aerase_self (akeys_aerase_nodup _ hndS)
        · cases v with
          | json j =>
            have hw := wfParams_mem hps (alookup_mem hq)
            rw [show wfParam "filter" "filter" (.json j) = false from rfl] at hw
            exact Bool.noConfusion hw
          | aggsMap m =>
            have hw := wfParams_mem hps (alookup_mem hq)
            rw [show wfParam "filter" "filter" (.aggsMap m) = false from rfl] at hw
            exact Bool.noConfusion hw
          | query q =>
            obtain ⟨hndq, hfq, haq, hmq⟩ :=
              wfParam_query_parts (wfParams_mem hps (alookup_mem hq))
            refine ⟨aupdate (aerase (aerase (aerase (serializeParams ps) "meta")
              "aggs") "filter") q, ?_, ?_, ?_⟩
            · rw [toDict_filter_query ps q hq]
              simp
            · rw [alookup_aupdate_not_mem _ hmq]
              rw [alookup_aerase_of_ne _ (by decide), alookup_aerase_of_ne _ (by decide)]
              exact alookup_aerase_self hndS
            · intro _
              rw [alookup_aupdate_not_mem _ haq]
              rw [alookup_aerase_of_ne _ (by decide)]
              exact alookup_aerase_self (akeys_aerase_nodup _ hndS)
      · refine ⟨aerase (aerase (serializeParams ps) "meta") "aggs", ?_, ?_, ?_⟩
        · rw [toDict_bucket ps hcat hnf]
        · rw [alookup_aerase_of_ne _ (by decide)]
          exact alookup_aerase_self hndS
        · intro _
          exact alookup_aerase_self (akeys_aerase_nodup _ hndS)

/-- Witness for C6: a terms bucket with a field parameter, a meta entry
and one child. -/
theorem c6_witness :
    ∃ inner : List (String × JSON),
      toDict (.mk "terms"
          [("field", .json (.str "tags")),
           ("meta", .json (.obj [("x", .num 1)])),
           ("aggs", .aggsMap [("m", .mk "max" [])])]) =
        .obj ([("terms", .obj inner)] ++
          metaSib [("field", .json (.str "tags")),
            ("meta", .json (.obj [("x", .num 1)])),
            ("aggs", .aggsMap [("m", .mk "max" [])])] ++
          (match catOf "terms" with
            | some Cat.bucket =>
              aggsSib [("field", .json (.str "tags")),
                ("meta", .json (.obj [("x", .num 1)])),
                ("aggs", .aggsMap [("m", .mk "max" [])])]
            | _ => [])) ∧
      alookup inner "meta" = none ∧
      (catOf "terms" = some Cat.bucket → alookup inner "aggs" = none) :=
  c6_sibling_hoisting "terms"
    [("field", .json (.str "tags")),
     ("meta", .json (.obj [("x", .num 1)])),
     ("aggs", .aggsMap [("m", .mk "max" [])])]
    (by decide)

/-- Counterexample to C6 as stated: a terms node whose children map is
present but empty serializes with an `aggs` sibling holding the empty
object, so the result does not consist of the kind-tag key alone even
though the children map is empty and no meta entry exists
(`Bucket.to_dict` hoists on key presence, aggs.py 177-178, and the
modelled base serialization emits every parameter that is set). -/
theorem c6_counterexample :
    toDict (.mk "terms" [("aggs", .aggsMap [])]) =
        .obj [("terms", .obj []), ("aggs", .obj [])] ∧
      toDict (.mk "terms" [("aggs", .aggsMap [])]) ≠
        .obj [("terms", .obj [])] := by
  refine ⟨rfl, ?_⟩
  intro h
  rw [show toDict (.mk "terms" [("aggs", .aggsMap [])]) =
    .obj [("terms", .obj []), ("aggs", .obj [])] from rfl] at h
  simp at h

lemma rtAgg_params {kind : String} {ps : List (String × PVal)}
    (h : rtAgg (.mk kind ps) = true) : rtParams ps = true := h

lemma rtParams_mem {ps : List (String × PVal)} (h : rtParams ps = true)
    {p : String × PVal} (hp : p ∈ ps) : rtParam p.1 p.2 = true := by
  induction ps with
  | nil => simp at hp
  | cons q rest ih =>
    obtain ⟨k, v⟩ := q
    rw [show rtParams ((k, v) :: rest) = (rtParam k v && rtParams rest) from rfl] at h
    simp only [Bool.and_eq_true] at h
    rcases List.mem_cons.mp hp with heq | hmem
    · subst heq
      exact h.1
    · exact ih h.2 hmem

lemma wfAggsMap_mem {m : List (String × Agg)} (h : wfAggsMap m = true)
    {p : String × Agg} (hp : p ∈ m) : wfAgg p.2 = true := by
  induction m with
  | nil => simp at hp
  | cons q rest ih =>
    obtain ⟨k, v⟩ := q
    rw [show wfAggsMap ((k, v) :: rest) = (wfAgg v && wfAggsMap rest) from rfl] at h
    simp only [Bool.and_eq_true] at h
    rcases List.mem_cons.mp hp with heq | hmem
    · subst heq
      exact h.1
    · exact ih h.2 hmem

lemma rtAggsMap_mem {m : List (String × Agg)} (h : rtAggsMap m = true)
    {p : String × Agg} (hp : p ∈ m) : rtAgg p.2 = true := by
  induction m with
  | nil => simp at hp
  | cons q rest ih =>
    obtain ⟨k, v⟩ := q
    rw [show rtAggsMap ((k, v) :: rest) = (rtAgg v && rtAggsMap rest) from rfl] at h
    simp only [Bool.and_eq_true] at h
    rcases List.mem_cons.mp hp with heq | hmem
    · subst heq
      exact h.1
    · exact ih h.2 hmem

lemma vsize_le_psize {ps : List (String × PVal)} {p : String × PVal}
    (hp : p ∈ ps) : vsize p.2 ≤ psize ps := by
  induction ps with
  | nil => simp at hp
  | cons q rest ih =>
    obtain ⟨k, v⟩ := q
    rw [show psize ((k, v) :: rest) = vsize v + psize rest from rfl]
    rcases List.mem_cons.mp hp with heq | hmem
    · subst heq
      exact Nat.le_add_right _ _
    · exact Nat.le_trans (ih hmem) (Nat.le_add_left _ _)

lemma asize_le_msize {m : List (String × Agg)} {p : String × Agg}
    (hp : p ∈ m) : asize p.2 ≤ msize m := by
  induction m with
  | nil => simp at hp
  | cons q rest ih =>
    obtain ⟨k, v⟩ := q
    rw [show msize ((k, v) :: rest) = asize v + msize rest from rfl]
    rcases List.mem_cons.mp hp with heq | hmem
    · subst heq
      exact Nat.le_add_right _ _
    · exact Nat.le_trans (ih hmem) (Nat.le_add_left _ _)

lemma aerase_append_not_mem {α : Type} {xs : List (String × α)}
    (ys : List (String × α)) {k : String} (h : ¬ k ∈ akeys xs) :
    aerase (xs ++ ys) k = xs ++ aerase ys k := by
  induction xs with
  | nil => rfl
  | cons p rest ih =>
    obtain ⟨k1, v1⟩ := p
    simp only [akeys, List.map_cons, List.mem_cons] at h
    push_neg at h
    have hne : k1 ≠ k := fun he => h.1 he.symm
    simp only [List.cons_append, aerase, if_neg hne, List.append_eq]
    rw [ih (by simpa [akeys] using h.2)]

lemma serializeParams_append (xs ys : List (String × PVal)) :
    serializeParams (xs ++ ys) = serializeParams xs ++ serializeParams ys := by
  induction xs with
  | nil => rfl
  | cons p rest ih =>
    obtain ⟨k, v⟩ := p
    rw [List.cons_append,
      show serializeParams ((k, v) :: (rest ++ ys)) =
        (k, serializePV v) :: serializeParams (rest ++ ys) from rfl,
      ih,
      show serializeParams ((k, v) :: rest) =
        (k, serializePV v) :: serializeParams rest from rfl,
      List.cons_append]

lemma serializeParams_mapVals_json (xs : List (String × JSON)) :
    serializeParams (mapVals PVal.json xs) = xs := by
  induction xs with
  | nil => rfl
  | cons p rest ih =>
    obtain ⟨k, v⟩ := p
    rw [show mapVals PVal.json ((k, v) :: rest) =
      (k, PVal.json v) :: mapVals PVal.json rest from rfl,
      show serializeParams ((k, PVal.json v) :: mapVals PVal.json rest) =
        (k, serializePV (.json v)) :: serializeParams (mapVals PVal.json rest) from rfl,
      ih]
    rfl

lemma coerceParams_append_ok {build : JSON → Except AErr Agg} {cat : Cat}
    {kind : String} {xs ys : List (String × JSON)}
    {a b : List (String × PVal)}
    (hx : coerceParams build cat kind xs = .ok a)
    (hy : coerceParams build cat kind ys = .ok b) :
    coerceParams build cat kind (xs ++ ys) = .ok (a ++ b) := by
  induction xs generalizing a with
  | nil =>
    rw [show coerceParams build cat kind ([] : List (String × JSON)) =
      .ok [] from rfl] at hx
    cases hx
    simpa using hy
  | cons p rest ih =>
    obtain ⟨k, j⟩ := p
    rw [show coerceParams build cat kind ((k, j) :: rest) =
      (match coerceOne build cat kind k j, coerceParams build cat kind rest with
        | .ok v, .ok ps => .ok ((k, v) :: ps)
        | .error e, _ => .error e
        | .ok _, .error e => .error e) from rfl] at hx
    rcases hco : coerceOne build cat kind k j with e | v
    · rw [hco] at hx
      exact Except.noConfusion hx
    · rw [hco] at hx
      rcases hcp : coerceParams build cat kind rest with e | ps
      · rw [hcp] at hx
        exact Except.noConfusion hx
      · rw [hcp] at hx
        have ha : a = (k, v) :: ps := by
          cases hx
          rfl
        subst ha
        rw [List.cons_append,
          show coerceParams build cat kind ((k, j) :: (rest ++ ys)) =
            (match coerceOne build cat kind k j,
                coerceParams build cat kind (rest ++ ys) with
              | .ok v, .ok ps => .ok ((k, v) :: ps)
              | .error e, _ => .error e
              | .ok _, .error e => .error e) from rfl,
          hco, ih hcp]
        rfl

lemma childBuild_roundtrip {f : Nat} {m : List (String × Agg)}
    (IH : ∀ p ∈ m, ∃ c2, buildNodeF f (toDict p.2) = .ok c2 ∧
      toDict c2 = toDict p.2) :
    ∃ m2, childBuild (buildNodeF f) (serializeAggsMap m) = .ok m2 ∧
      serializeAggsMap m2 = serializeAggsMap m := by
  induction m with
  | nil => exact ⟨[], rfl, rfl⟩
  | cons p rest ih =>
    obtain ⟨nm, c⟩ := p
    obtain ⟨c2, hc2, hcd⟩ := IH (nm, c) (List.mem_cons_self _ _)
    obtain ⟨m2, hm2, hmd⟩ := ih (fun q hq => IH q (List.mem_cons_of_mem _ hq))
    refine ⟨(nm, c2) :: m2, ?_, ?_⟩
    · rw [show serializeAggsMap ((nm, c) :: rest) =
        (nm, toDict c) :: serializeAggsMap rest from rfl]
      rw [show childBuild (buildNodeF f) ((nm, toDict c) :: serializeAggsMap rest) =
        (match buildNodeF f (toDict c), childBuild (buildNodeF f) (serializeAggsMap rest) with
          | .ok a, .ok m => .ok ((nm, a) :: m)
          | .error e, _ => .error e
          | .ok _, .error e => .error e) from rfl]
      rw [hc2, hm2]
    · rw [show serializeAggsMap ((nm, c2) :: m2) =
        (nm, toDict c2) :: serializeAggsMap m2 from rfl, hcd, hmd]
      rfl

/-- The optional meta sibling of a serialized node. -/
def metaPart : Option JSON → List (String × JSON)
  | some mv => [("meta", mv)]
  | none => []

/-- The optional aggs sibling of a serialized node. -/
def aggsPart : Option (List (String × Agg)) → List (String × JSON)
  | some m => [("aggs", .obj (serializeAggsMap m))]
  | none => []

/-- Trace of the factory on a serialized node shape: the reserved
siblings are popped and re-attached, the single remaining key resolves
the constructor. -/
lemma buildStep_top (build : JSON → Except AErr Agg) (kind : String)
    (hka : kind ≠ "aggs") (hkm : kind ≠ "meta")
    (I : List (String × JSON)) (metaE aggsE : Option JSON) :
    buildStep build (.obj ([(kind, .obj I)] ++
        (match metaE with
          | some mv => [("meta", mv)]
          | none => []) ++
        (match aggsE with
          | some av => [("aggs", av)]
          | none => []))) =
      constructA build kind
        (match metaE with
          | some m =>
            if truthy m then
              aset (match aggsE with
                | some a => if truthy a then aset I "aggs" a else I
                | none => I) "meta" m
            else
              match aggsE with
              | some a => if truthy a then aset I "aggs" a else I
              | none => I
          | none =>
            match aggsE with
            | some a => if truthy a then aset I "aggs" a else I
            | none => I) := by
  rcases metaE with _ | mv <;> rcases aggsE with _ | av <;>
    simp [buildStep, alookup, aerase, hka, hkm]

lemma notmem_akeys_append {α : Type} {I : List (String × α)} {k k2 : String}
    {v : α} (h : ¬ k ∈ akeys I) (hne : k ≠ k2) :
    ¬ k ∈ akeys (I ++ [(k2, v)]) := by
  intro hmem
  rw [show akeys (I ++ [(k2, v)]) = akeys I ++ [k2] from by simp [akeys]] at hmem
  rcases List.mem_append.mp hmem with h1 | h2
  · exact h h1
  · exact hne (List.mem_singleton.mp h2)

lemma alookup_append_single_ne {α : Type} (I : List (String × α))
    {k k2 : String} (v : α) (hne : k ≠ k2) :
    alookup (I ++ [(k2, v)]) k = alookup I k := by
  rw [alookup_append]
  rcases alookup I k with _ | w
  · simp only [alookup, if_neg (fun h : k2 = k => hne h.symm)]
  · rfl

/-- Core of the round trip: re-parsing a serialized shape made of a raw
inner object, an optional truthy meta sibling and an optional non-empty
aggs sibling (whose children rebuild) produces a node whose parameters
serialize back to exactly the same inner object and siblings. -/
lemma rebuild_core (f : Nat) (kind : String) (cat : Cat)
    (hcat : catOf kind = some cat) (hka : kind ≠ "aggs") (hkm : kind ≠ "meta")
    (I : List (String × JSON))
    (hImem : ¬ "meta" ∈ akeys I)
    (hcond : ∀ p ∈ I, ¬(p.1 = "aggs" ∧ cat = Cat.bucket) ∧
      ¬(p.1 = "filter" ∧ kind = "filter"))
    (metaE : Option JSON)
    (hmt : ∀ mv, metaE = some mv → truthy mv = true)
    (aggsE : Option (List (String × Agg)))
    (haggs : ∀ m, aggsE = some m → cat = Cat.bucket ∧ m ≠ [] ∧
      ∃ m2, childBuild (buildNodeF f) (serializeAggsMap m) = .ok m2 ∧
        serializeAggsMap m2 = serializeAggsMap m)
    (hIamem : aggsE ≠ none → ¬ "aggs" ∈ akeys I) :
    ∃ ps2 : List (String × PVal),
      buildStep (buildNodeF f) (.obj ([(kind, .obj I)] ++
        metaPart metaE ++ aggsPart aggsE)) = .ok (.mk kind ps2) ∧
      aerase (serializeParams ps2) "meta" = I ++ aggsPart aggsE ∧
      metaSib ps2 = metaPart metaE ∧
      (¬ "aggs" ∈ akeys I → aggsSib ps2 = aggsPart aggsE) ∧
      (¬ "aggs" ∈ akeys I →
        aerase (aerase (serializeParams ps2) "meta") "aggs" = I) ∧
      (¬ "filter" ∈ akeys I → alookup ps2 "filter" = none) := by
  have hcondRaw : coerceParams (buildNodeF f) cat kind I =
      .ok (mapVals PVal.json I) := coerceParams_raw hcond
  have hmetaRaw : ∀ mv : JSON,
      coerceParams (buildNodeF f) cat kind [("meta", mv)] =
        .ok [("meta", .json mv)] := by
    intro mv
    exact coerceParams_raw (by
      intro p hp
      rcases List.mem_singleton.mp hp with rfl
      exact ⟨by simp, by simp⟩)
  rcases aggsE with _ | m
  · rcases metaE with _ | mv
    · simp only [metaPart, aggsPart]
      refine ⟨mapVals PVal.json I, ?_, ?_, ?_, ?_, ?_, ?_⟩
      · rw [buildStep_top _ kind hka hkm I none none]
        simp only [constructA, hcat, hcondRaw]
        rfl
      · rw [serializeParams_mapVals_json, aerase_not_mem hImem, List.append_nil]
      · rw [metaSib, alookup_mapVals, alookup_not_mem hImem]
        rfl
      · intro hIa
        rw [aggsSib, alookup_mapVals, alookup_not_mem hIa]
        rfl
      · intro hIa
        rw [serializeParams_mapVals_json, aerase_not_mem hImem,
          aerase_not_mem hIa]
      · intro hf
        rw [alookup_mapVals, alookup_not_mem hf]
        rfl
    · simp only [metaPart, aggsPart]
      refine ⟨mapVals PVal.json I ++ [("meta", .json mv)], ?_, ?_, ?_, ?_, ?_, ?_⟩
      · rw [buildStep_top _ kind hka hkm I (some mv) none]
        rw [show (match (some mv : Option JSON) with
          | some m =>
            if truthy m then
              aset (match (none : Option JSON) with
                | some a => if truthy a then aset I "aggs" a else I
                | none => I) "meta" m
            else
              match (none : Option JSON) with
              | some a => if truthy a then aset I "aggs" a else I
              | none => I
          | none =>
            match (none : Option JSON) with
            | some a => if truthy a then aset I "aggs" a else I
            | none => I) = if truthy mv then aset I "meta" mv else I from rfl]
        rw [if_pos (hmt mv rfl), aset_not_mem _ hImem]
        simp only [constructA, hcat,
          coerceParams_append_ok hcondRaw (hmetaRaw mv)]
        rfl
      · rw [serializeParams_append, serializeParams_mapVals_json,
          show serializeParams [("meta", PVal.json mv)] = [("meta", mv)] from rfl,
          aerase_append_not_mem _ hImem,
          show aerase [(("meta" : String), mv)] "meta" = [] from by simp [aerase]]
      · rw [metaSib, alookup_append, alookup_mapVals, alookup_not_mem hImem]
        rfl
      · intro hIa
        rw [aggsSib, alookup_append_single_ne _ _ (by decide),
          alookup_mapVals, alookup_not_mem hIa]
        rfl
      · intro hIa
        rw [serializeParams_append, serializeParams_mapVals_json,
          show serializeParams [("meta", PVal.json mv)] = [("meta", mv)] from rfl,
          aerase_append_not_mem _ hImem,
          show aerase [(("meta" : String), mv)] "meta" = [] from by simp [aerase],
          List.append_nil, aerase_not_mem hIa]
      · intro hf
        rw [alookup_append_single_ne _ _ (by decide),
          alookup_mapVals, alookup_not_mem hf]
        rfl
  · obtain ⟨hcb, hm0, m2, hm2, hmd⟩ := haggs m rfl
    subst hcb
    have hIa : ¬ "aggs" ∈ akeys I := hIamem (by simp)
    have hav : truthy (.obj (serializeAggsMap m)) = true := by
      cases m with
      | nil => exact absurd rfl hm0
      | cons c r =>
        obtain ⟨nm, cc⟩ := c
        rfl
    have haggsCoerce : coerceParams (buildNodeF f) Cat.bucket kind
        [("aggs", .obj (serializeAggsMap m))] = .ok [("aggs", .aggsMap m2)] := by
      rw [show coerceParams (buildNodeF f) Cat.bucket kind
          [("aggs", .obj (serializeAggsMap m))] =
        (match coerceOne (buildNodeF f) Cat.bucket kind "aggs"
              (.obj (serializeAggsMap m)),
            coerceParams (buildNodeF f) Cat.bucket kind [] with
          | .ok v, .ok ps => .ok (("aggs", v) :: ps)
          | .error e, _ => .error e
          | .ok _, .error e => .error e) from rfl]
      rw [show coerceOne (buildNodeF f) Cat.bucket kind "aggs"
          (.obj (serializeAggsMap m)) =
        (childBuild (buildNodeF f) (serializeAggsMap m)).map .aggsMap from by
          simp [coerceOne]]
      rw [hm2]
      rfl
    rcases metaE with _ | mv
    · simp only [metaPart, aggsPart]
      refine ⟨mapVals PVal.json I ++ [("aggs", .aggsMap m2)], ?_, ?_, ?_, ?_, ?_, ?_⟩
      · rw [buildStep_top _ kind hka hkm I none (some (.obj (serializeAggsMap m)))]
        rw [show (match (none : Option JSON) with
          | some mv2 =>
            if truthy mv2 then
              aset (match (some (JSON.obj (serializeAggsMap m)) : Option JSON) with
                | some a => if truthy a then aset I "aggs" a else I
                | none => I) "meta" mv2
            else
              match (some (JSON.obj (serializeAggsMap m)) : Option JSON) with
              | some a => if truthy a then aset I "aggs" a else I
              | none => I
          | none =>
            match (some (JSON.obj (serializeAggsMap m)) : Option JSON) with
            | some a => if truthy a then aset I "aggs" a else I
            | none => I) =
          if truthy (JSON.obj (serializeAggsMap m)) then
            aset I "aggs" (.obj (serializeAggsMap m))
          else I from rfl]
        rw [if_pos hav, aset_not_mem _ hIa]
        simp only [constructA, hcat,
          coerceParams_append_ok hcondRaw haggsCoerce]
        rfl
      · rw [serializeParams_append, serializeParams_mapVals_json,
          show serializeParams [("aggs", PVal.aggsMap m2)] =
            [("aggs", .obj (serializeAggsMap m2))] from rfl,
          hmd,
          aerase_append_not_mem _ hImem,
          show aerase [(("aggs" : String), JSON.obj (serializeAggsMap m))] "meta" =
            [(("aggs" : String), JSON.obj (serializeAggsMap m))] from by
              simp [aerase]]
      · rw [metaSib, alookup_append_single_ne _ _ (by decide),
          alookup_mapVals, alookup_not_mem hImem]
        rfl
      · intro _
        rw [aggsSib, alookup_append, alookup_mapVals, alookup_not_mem hIa]
        simp [serializePV, alookup, hmd]
      · intro _
        rw [serializeParams_append, serializeParams_mapVals_json,
          show serializeParams [("aggs", PVal.aggsMap m2)] =
            [("aggs", .obj (serializeAggsMap m2))] from rfl,
          hmd,
          aerase_append_not_mem _ hImem,
          show aerase [(("aggs" : String), JSON.obj (serializeAggsMap m))] "meta" =
            [(("aggs" : String), JSON.obj (serializeAggsMap m))] from by
              simp [aerase],
          aerase_append_not_mem _ hIa,
          show aerase [(("aggs" : String), JSON.obj (serializeAggsMap m))] "aggs" =
            [] from by simp [aerase],
          List.append_nil]
      · intro hf
        rw [alookup_append_single_ne _ _ (by decide),
          alookup_mapVals, alookup_not_mem hf]
        rfl
    · have hImem2 : ¬ "meta" ∈
          akeys (I ++ [("aggs", JSON.obj (serializeAggsMap m))]) :=
        notmem_akeys_append hImem (by decide)
      simp only [metaPart, aggsPart]
      refine ⟨(mapVals PVal.json I ++ [("aggs", .aggsMap m2)]) ++
        [("meta", .json mv)], ?_, ?_, ?_, ?_, ?_, ?_⟩
      · rw [buildStep_top _ kind hka hkm I (some mv)
          (some (.obj (serializeAggsMap m)))]
        rw [show (match (some mv : Option JSON) with
          | some m2v =>
            if truthy m2v then
              aset (match (some (JSON.obj (serializeAggsMap m)) : Option JSON) with
                | some a => if truthy a then aset I "aggs" a else I
                | none => I) "meta" m2v
            else
              match (some (JSON.obj (serializeAggsMap m)) : Option JSON) with
              | some a => if truthy a then aset I "aggs" a else I
              | none => I
          | none =>
            match (some (JSON.obj (serializeAggsMap m)) : Option JSON) with
            | some a => if truthy a then aset I "aggs" a else I
            | none => I) =
          if truthy mv then
            aset (if truthy (JSON.obj (serializeAggsMap m)) then
              aset I "aggs" (.obj (serializeAggsMap m)) else I) "meta" mv
          else
            (if truthy (JSON.obj (serializeAggsMap m)) then
              aset I "aggs" (.obj (serializeAggsMap m)) else I) from rfl]
        rw [if_pos hav, if_pos (hmt mv rfl), aset_not_mem _ hIa,
          aset_not_mem _ hImem2]
        simp only [constructA, hcat,
          coerceParams_append_ok (coerceParams_append_ok hcondRaw haggsCoerce)
            (hmetaRaw mv)]
        rfl
      · rw [serializeParams_append, serializeParams_append,
          serializeParams_mapVals_json,
          show serializeParams [("aggs", PVal.aggsMap m2)] =
            [("aggs", .obj (serializeAggsMap m2))] from rfl,
          show serializeParams [("meta", PVal.json mv)] = [("meta", mv)] from rfl,
          hmd,
          aerase_append_not_mem _ hImem2,
          show aerase [(("meta" : String), mv)] "meta" = [] from by simp [aerase],
          List.append_nil]
      · rw [metaSib, alookup_append, alookup_append_single_ne _ _ (by decide),
          alookup_mapVals, alookup_not_mem hImem]
        rfl
      · intro _
        rw [aggsSib, alookup_append_single_ne _ _ (by decide),
          alookup_append, alookup_mapVals, alookup_not_mem hIa]
        simp [serializePV, alookup, hmd]
      · intro _
        rw [serializeParams_append, serializeParams_append,
          serializeParams_mapVals_json,
          show serializeParams [("aggs", PVal.aggsMap m2)] =
            [("aggs", .obj (serializeAggsMap m2))] from rfl,
          show serializeParams [("meta", PVal.json mv)] = [("meta", mv)] from rfl,
          hmd,
          aerase_append_not_mem _ hImem2,
          show aerase [(("meta" : String), mv)] "meta" = [] from by simp [aerase],
          List.append_nil,
          aerase_append_not_mem _ hIa,
          show aerase [(("aggs" : String), JSON.obj (serializeAggsMap m))] "aggs" =
            [] from by simp [aerase],
          List.append_nil]
      · intro hf
        rw [alookup_append_single_ne _ _ (by decide),
          alookup_append_single_ne _ _ (by decide),
          alookup_mapVals, alookup_not_mem hf]
        rfl

/-- One node of the round trip: the factory re-parses the serialized
node into a node with the same serialization, provided the recursion
budget covers the children. -/
lemma buildStep_roundtrip (f : Nat)
    (IH : ∀ c : Agg, wfAgg c = true → rtAgg c = true → asize c ≤ f →
      ∃ c2, buildNodeF f (toDict c) = .ok c2 ∧ toDict c2 = toDict c)
    (kind : String) (ps : List (String × PVal))
    (hwf : wfAgg (.mk kind ps) = true) (hrt : rtAgg (.mk kind ps) = true)
    (hsz : psize ps ≤ f) :
    ∃ n2, buildStep (buildNodeF f) (toDict (.mk kind ps)) = .ok n2 ∧
      toDict n2 = toDict (.mk kind ps) := by
  obtain ⟨hsome, hnd, hps⟩ := wfAgg_parts hwf
  have hrtp : rtParams ps = true := hrt
  have hndS : (akeys (serializeParams ps)).Nodup := by
    rw [akeys_serializeParams]
    exact hnd
  rcases hcat : catOf kind with _ | cat
  · rw [hcat] at hsome
    simp at hsome
  obtain ⟨hka, hkm⟩ := registered_not_reserved hcat
  obtain ⟨metaE, hqmE, hmtE⟩ : ∃ me : Option JSON,
      metaSib ps = metaPart me ∧
      ∀ mv, me = some mv → truthy mv = true := by
    rcases hqm : alookup ps "meta" with _ | vm
    · exact ⟨none, by rw [metaSib, hqm]; rfl, fun _ h => nomatch h⟩
    · cases vm with
      | json jm =>
        refine ⟨some jm, by rw [metaSib, hqm]; rfl, fun mv h => ?_⟩
        cases h
        have hr := rtParams_mem hrtp (alookup_mem hqm)
        simpa [rtParam] using hr
      | query q =>
        have hw := wfParams_mem hps (alookup_mem hqm)
        simp [wfParam] at hw
      | aggsMap m =>
        have hw := wfParams_mem hps (alookup_mem hqm)
        simp [wfParam] at hw
  by_cases hcb : cat = Cat.bucket
  · subst hcb
    obtain ⟨aggsE, hqaE, haggsE⟩ : ∃ ae : Option (List (String × Agg)),
        aggsSib ps = aggsPart ae ∧
        ∀ m, ae = some m → Cat.bucket = Cat.bucket ∧ m ≠ [] ∧
          ∃ m2, childBuild (buildNodeF f) (serializeAggsMap m) = .ok m2 ∧
            serializeAggsMap m2 = serializeAggsMap m := by
      rcases hqa : alookup ps "aggs" with _ | va
      · exact ⟨none, by rw [aggsSib, hqa]; rfl, fun _ h => nomatch h⟩
      · cases va with
        | json j =>
          have hw := wfParams_mem hps (alookup_mem hqa)
          have hbk : isBucketKind kind = true := by
            simp [isBucketKind, hcat]
          simp [wfParam, hbk] at hw
        | query q =>
          have hw := wfParams_mem hps (alookup_mem hqa)
          simp [wfParam] at hw
        | aggsMap m =>
          have hw := wfParams_mem hps (alookup_mem hqa)
          have hr := rtParams_mem hrtp (alookup_mem hqa)
          rw [show wfParam kind "aggs" (.aggsMap m) =
            ("aggs" == "aggs" && isBucketKind kind && (akeys m).Nodup &&
              wfAggsMap m) from rfl] at hw
          simp only [Bool.and_eq_true, decide_eq_true_eq] at hw
          rw [show rtParam "aggs" (.aggsMap m) =
            (!m.isEmpty && rtAggsMap m) from rfl] at hr
          simp only [Bool.and_eq_true, Bool.not_eq_true',
            List.isEmpty_eq_false] at hr
          have hszm : msize m ≤ psize ps := by
            have := vsize_le_psize (alookup_mem hqa)
            simpa [vsize] using this
          have hch : ∀ p ∈ m, ∃ c2,
              buildNodeF f (toDict p.2) = .ok c2 ∧ toDict c2 = toDict p.2 :=
            fun p hp => IH p.2 (wfAggsMap_mem hw.2 hp) (rtAggsMap_mem hr.2 hp)
              (Nat.le_trans (asize_le_msize hp) (Nat.le_trans hszm hsz))
          refine ⟨some m, by rw [aggsSib, hqa]; rfl, fun m' h => ?_⟩
          cases h
          exact ⟨rfl, hr.1, childBuild_roundtrip hch⟩
    by_cases hnf : kind = "filter"
    · subst hnf
      rcases hqf : alookup ps "filter" with _ | vf
      · -- filter kind without a filter slot
        have hfS : ¬ "filter" ∈ akeys (aerase (aerase (serializeParams ps)
            "meta") "aggs") := by
          intro hmem
          have h2 := akeys_aerase_subset _ _ (akeys_aerase_subset _ _ hmem)
          rw [akeys_serializeParams] at h2
          obtain ⟨v, hv⟩ := mem_akeys.mp h2
          rw [mem_alookup hnd hv] at hqf
          exact Option.noConfusion hqf
        have hIm : alookup (aerase (aerase (serializeParams ps) "meta") "aggs")
            "meta" = none := by
          rw [alookup_aerase_of_ne _ (by decide)]
          exact alookup_aerase_self hndS
        have hIa : alookup (aerase (aerase (serializeParams ps) "meta") "aggs")
            "aggs" = none := alookup_aerase_self (akeys_aerase_nodup _ hndS)
        have hcond : ∀ p ∈ aerase (aerase (serializeParams ps) "meta") "aggs",
            ¬(p.1 = "aggs" ∧ Cat.bucket = Cat.bucket) ∧
            ¬(p.1 = "filter" ∧ ("filter" : String) = "filter") := by
          intro p hp
          constructor
          · rintro ⟨h1, _⟩
            have : p.1 ∈ akeys (aerase (aerase (serializeParams ps) "meta") "aggs") :=
              mem_akeys.mpr ⟨p.2, by simpa using hp⟩
            rw [h1] at this
            exact (alookup_eq_none.mp hIa) this
          · rintro ⟨h1, _⟩
            have : p.1 ∈ akeys (aerase (aerase (serializeParams ps) "meta") "aggs") :=
              mem_akeys.mpr ⟨p.2, by simpa using hp⟩
            rw [h1] at this
            exact hfS this
        obtain ⟨ps2, hbs, hser, hms2, has2, her2, hfl2⟩ :=
          rebuild_core f "filter" Cat.bucket hcat (by decide) (by decide)
            (aerase (aerase (serializeParams ps) "meta") "aggs")
            (alookup_eq_none.mp hIm) hcond metaE hmtE aggsE haggsE
            (fun _ => alookup_eq_none.mp hIa)
        have htop : toDict (.mk "filter" ps) =
            .obj ([("filter", .obj (aerase (aerase (serializeParams ps) "meta")
              "aggs"))] ++
              metaPart metaE ++ aggsPart aggsE) := by
          rw [toDict_filter_none ps hqf, hqmE, hqaE]
          simp [metaPart, aggsPart]
        refine ⟨.mk "filter" ps2, ?_, ?_⟩
        · rw [htop]
          exact hbs
        · rw [toDict_filter_none ps2 (hfl2 hfS),
            her2 (alookup_eq_none.mp hIa), hms2, has2 (alookup_eq_none.mp hIa),
            htop]
          simp [metaPart, aggsPart]
      · -- filter kind with a filter slot: must be a query
        cases vf with
        | json j =>
          have hw := wfParams_mem hps (alookup_mem hqf)
          rw [show wfParam "filter" "filter" (.json j) = false from rfl] at hw
          exact Bool.noConfusion hw
        | aggsMap m =>
          have hw := wfParams_mem hps (alookup_mem hqf)
          rw [show wfParam "filter" "filter" (.aggsMap m) = false from rfl] at hw
          exact Bool.noConfusion hw
        | query q =>
          obtain ⟨hndq, hfq, haq, hmq⟩ :=
            wfParam_query_parts (wfParams_mem hps (alookup_mem hqf))
          have hndS1 : (akeys (aerase (serializeParams ps) "meta")).Nodup :=
            akeys_aerase_nodup _ hndS
          have hndS2 : (akeys (aerase (aerase (serializeParams ps) "meta")
              "aggs")).Nodup := akeys_aerase_nodup _ hndS1
          have hIm : alookup (aupdate (aerase (aerase (aerase
              (serializeParams ps) "meta") "aggs") "filter") q) "meta" = none := by
            rw [alookup_aupdate_not_mem _ hmq, alookup_aerase_of_ne _ (by decide),
              alookup_aerase_of_ne _ (by decide)]
            exact alookup_aerase_self hndS
          have hIa : alookup (aupdate (aerase (aerase (aerase
              (serializeParams ps) "meta") "aggs") "filter") q) "aggs" = none := by
            rw [alookup_aupdate_not_mem _ haq, alookup_aerase_of_ne _ (by decide)]
            exact alookup_aerase_self hndS1
          have hIf : alookup (aupdate (aerase (aerase (aerase
              (serializeParams ps) "meta") "aggs") "filter") q) "filter" = none := by
            rw [alookup_aupdate_not_mem _ hfq]
            exact alookup_aerase_self hndS2
          have hcond : ∀ p ∈ aupdate (aerase (aerase (aerase
              (serializeParams ps) "meta") "aggs") "filter") q,
              ¬(p.1 = "aggs" ∧ Cat.bucket = Cat.bucket) ∧
              ¬(p.1 = "filter" ∧ ("filter" : String) = "filter") := by
            intro p hp
            constructor
            · rintro ⟨h1, _⟩
              have : p.1 ∈ akeys (aupdate (aerase (aerase (aerase
                  (serializeParams ps) "meta") "aggs") "filter") q) :=
                mem_akeys.mpr ⟨p.2, by simpa using hp⟩
              rw [h1] at this
              exact (alookup_eq_none.mp hIa) this
            · rintro ⟨h1, _⟩
              have : p.1 ∈ akeys (aupdate (aerase (aerase (aerase
                  (serializeParams ps) "meta") "aggs") "filter") q) :=
                mem_akeys.mpr ⟨p.2, by simpa using hp⟩
              rw [h1] at this
              exact (alookup_eq_none.mp hIf) this
          obtain ⟨ps2, hbs, hser, hms2, has2, her2, hfl2⟩ :=
            rebuild_core f "filter" Cat.bucket hcat (by decide) (by decide)
              (aupdate (aerase (aerase (aerase (serializeParams ps) "meta")
                "aggs") "filter") q)
              (alookup_eq_none.mp hIm) hcond metaE hmtE aggsE haggsE
              (fun _ => alookup_eq_none.mp hIa)
          have htop : toDict (.mk "filter" ps) =
              .obj ([("filter", .obj (aupdate (aerase (aerase (aerase
                (serializeParams ps) "meta") "aggs") "filter") q))] ++
                metaPart metaE ++ aggsPart aggsE) := by
            rw [toDict_filter_query ps q hqf, hqmE, hqaE]
            simp [metaPart, aggsPart]
          refine ⟨.mk "filter" ps2, ?_, ?_⟩
          · rw [htop]
            exact hbs
          · rw [toDict_filter_none ps2 (hfl2 (alookup_eq_none.mp hIf)),
              her2 (alookup_eq_none.mp hIa), hms2,
              has2 (alookup_eq_none.mp hIa), htop]
            simp [metaPart, aggsPart]
    · -- bucket kind other than filter
      have hIm : alookup (aerase (aerase (serializeParams ps) "meta") "aggs")
          "meta" = none := by
        rw [alookup_aerase_of_ne _ (by decide)]
        exact alookup_aerase_self hndS
      have hIa : alookup (aerase (aerase (serializeParams ps) "meta") "aggs")
          "aggs" = none := alookup_aerase_self (akeys_aerase_nodup _ hndS)
      have hcond : ∀ p ∈ aerase (aerase (serializeParams ps) "meta") "aggs",
          ¬(p.1 = "aggs" ∧ Cat.bucket = Cat.bucket) ∧
          ¬(p.1 = "filter" ∧ kind = "filter") := by
        intro p hp
        constructor
        · rintro ⟨h1, _⟩
          have : p.1 ∈ akeys (aerase (aerase (serializeParams ps) "meta") "aggs") :=
            mem_akeys.mpr ⟨p.2, by simpa using hp⟩
          rw [h1] at this
          exact (alookup_eq_none.mp hIa) this
        · rintro ⟨_, h2⟩
          exact hnf h2
      obtain ⟨ps2, hbs, hser, hms2, has2, her2, hfl2⟩ :=
        rebuild_core f kind Cat.bucket hcat hka hkm
          (aerase (aerase (serializeParams ps) "meta") "aggs")
          (alookup_eq_none.mp hIm) hcond metaE hmtE aggsE haggsE
          (fun _ => alookup_eq_none.mp hIa)
      have htop : toDict (.mk kind ps) =
          .obj ([(kind, .obj (aerase (aerase (serializeParams ps) "meta")
            "aggs"))] ++
            metaPart metaE ++ aggsPart aggsE) := by
        rw [toDict_bucket ps hcat hnf, hqmE, hqaE]
      refine ⟨.mk kind ps2, ?_, ?_⟩
      · rw [htop]
        exact hbs
      · rw [toDict_bucket ps2 hcat hnf,
          her2 (alookup_eq_none.mp hIa), hms2, has2 (alookup_eq_none.mp hIa),
          htop]
  · -- metric and pipeline kinds
    have hkf : kind ≠ "filter" := by
      intro he
      rw [he] at hcat
      have h2 : (some Cat.bucket : Option Cat) = some cat := by
        rw [← hcat]
        rfl
      exact hcb (Option.some.inj h2).symm
    have hIm : alookup (aerase (serializeParams ps) "meta") "meta" = none :=
      alookup_aerase_self hndS
    have hcond : ∀ p ∈ aerase (serializeParams ps) "meta",
        ¬(p.1 = "aggs" ∧ cat = Cat.bucket) ∧
        ¬(p.1 = "filter" ∧ kind = "filter") :=
      fun p _ => ⟨fun h => hcb h.2, fun h => hkf h.2⟩
    obtain ⟨ps2, hbs, hser, hms2, has2, her2, hfl2⟩ :=
      rebuild_core f kind cat hcat hka hkm
        (aerase (serializeParams ps) "meta")
        (alookup_eq_none.mp hIm) hcond metaE hmtE none (fun _ h => nomatch h)
        (fun h => absurd rfl h)
    have htop : toDict (.mk kind ps) =
        .obj ([(kind, .obj (aerase (serializeParams ps) "meta"))] ++
          metaPart metaE ++
          aggsPart (none : Option (List (String × Agg)))) := by
      rw [toDict_nonbucket ps hcat hcb, hqmE]
      simp [metaPart, aggsPart]
    refine ⟨.mk kind ps2, ?_, ?_⟩
    · rw [htop]
      exact hbs
    · rw [toDict_nonbucket ps2 hcat hcb, hser, hms2, htop]
      simp [metaPart, aggsPart]

/-- Claim C2 (amended): for every well-formed node whose meta parameters
are truthy and whose children maps are non-empty, re-parsing the
serialized wire object through the factory yields a node with the same
serialization — serialize, build, serialize is serialize — for any
recursion budget covering the tree; in particular the re-parse of the
filter-merged form reproduces the original serialized filter node. -/
theorem c2_round_trip (f : Nat) (n : Agg) (hwf : wfAgg n = true)
    (hrt : rtAgg n = true) (hsz : asize n ≤ f) :
    ∃ n2, buildNodeF f (toDict n) = .ok n2 ∧ toDict n2 = toDict n := by
  induction f generalizing n with
  | zero =>
    obtain ⟨kind, ps⟩ := n
    rw [show asize (.mk kind ps) = psize ps + 1 from rfl] at hsz
    exact absurd hsz (by omega)
  | succ f ih =>
    obtain ⟨kind, ps⟩ := n
    rw [show buildNodeF (f + 1) (toDict (.mk kind ps)) =
      buildStep (buildNodeF f) (toDict (.mk kind ps)) from rfl]
    refine buildStep_roundtrip f ih kind ps hwf hrt ?_
    rw [show asize (.mk kind ps) = psize ps + 1 from rfl] at hsz
    omega

/-- Witness for C2: a terms node carrying a filter child (exercising the
filter merge) and a max grandchild round-trips at budget 4. -/
theorem c2_witness :
    ∃ n2, buildNodeF 4 (toDict (.mk "terms"
        [("field", .json (.str "tags")),
         ("aggs", .aggsMap [("f", .mk "filter"
            [("filter", .query [("term", .obj [("t", .str "v")])]),
             ("aggs", .aggsMap [("m", .mk "max" [])])])])])) = .ok n2 ∧
      toDict n2 = toDict (.mk "terms"
        [("field", .json (.str "tags")),
         ("aggs", .aggsMap [("f", .mk "filter"
            [("filter", .query [("term", .obj [("t", .str "v")])]),
             ("aggs", .aggsMap [("m", .mk "max" [])])])])]) :=
  c2_round_trip 4
    (.mk "terms"
      [("field", .json (.str "tags")),
       ("aggs", .aggsMap [("f", .mk "filter"
          [("filter", .query [("term", .obj [("t", .str "v")])]),
           ("aggs", .aggsMap [("m", .mk "max" [])])])])])
    (by decide) (by decide) (by decide)

/-- Counterexample to C2 as stated: a well-formed terms node with an
empty-object meta parameter serializes with a meta sibling, but the
factory drops the falsy meta on re-parse (`if meta:`, aggs.py 73), so
the rebuilt node serializes without it and the round trip fails. -/
theorem c2_counterexample :
    wfAgg (.mk "terms" [("meta", .json (.obj []))]) = true ∧
      (∀ f : Nat, buildNodeF (f + 1)
        (toDict (.mk "terms" [("meta", .json (.obj []))])) =
          .ok (.mk "terms" [])) ∧
      toDict (.mk "terms" ([] : List (String × PVal))) ≠
        toDict (.mk "terms" [("meta", .json (.obj []))]) := by
  refine ⟨by decide, fun f => rfl, ?_⟩
  intro h
  rw [show toDict (.mk "terms" ([] : List (String × PVal))) =
      .obj [("terms", .obj [])] from rfl,
    show toDict (.mk "terms" [("meta", .json (.obj []))]) =
      .obj [("terms", .obj []), ("meta", .obj [])] from rfl] at h
  simp at h
